import Mathlib

/-!
# NestedRichTextEditorUtil: the nesting-aware editing commands of draft-js

A shallow embedding of `src/lib/NestedRichTextEditorUtil.js`.

The handlers of that file are translated one by one, keeping their names.
Everything they call that lives in other modules (`DraftModifier`,
`EditorState`, `RichTextEditorUtil`) is a field of `Collaborators`, so that
a statement about a handler holds for every implementation of those modules.
The records of the data model (`ContentBlockNode`, `SelectionState`,
`ContentState`, `EditorState`) and a reference implementation of the
collaborators (`specCollaborators`) are modelled from the specification.

Conventions.
* A JavaScript `null` result is `none`; a thrown `TypeError` (a method called
  on `undefined`) is `Except.error JsError.typeError`.
* Block keys are opaque identifiers; an optional key is `Option String` and a
  present key is truthy.
* Offsets and lengths are natural numbers.
* The block map is the list of blocks in document order. In the source it is an
  ordered map, so its keys are pairwise distinct; statements that need this
  carry the hypothesis `ContentState.keysNodup`.
* The persistent records are compared with `!==` in the source; a mutator
  signals a no-op by returning its input, and the embedding compares values.
* `onTab` receives the depth adjuster as a parameter and returns the event
  together with the editor state, so that `preventDefault` is visible.
-/

set_option autoImplicit false

namespace Draft

/-! ## Data model -/

/-- The only failure the handlers can raise: a method call on `undefined`. -/
inductive JsError where
  | typeError
  deriving DecidableEq, Repr

/-- Modelled from the spec: the per-character annotation (section 3, Block), a
set of inline-style tags and an optional entity reference. -/
structure CharacterMetadata where
  style : List String
  entity : Option String
  deriving DecidableEq, Repr

/-- Modelled from the spec: the Block record of section 3. The class itself
(`ContentBlockNode`) is not part of `NestedRichTextEditorUtil.js`. -/
structure ContentBlockNode where
  key : String
  type : String
  text : List Char
  characterList : List CharacterMetadata
  depth : Nat
  parent : Option String
  children : List String
  prevSibling : Option String
  nextSibling : Option String
  deriving DecidableEq, Repr

/-- Modelled from the spec: the Selection record of section 3, anchor and focus
positions and a backward flag. -/
structure SelectionState where
  anchorKey : String
  anchorOffset : Nat
  focusKey : String
  focusOffset : Nat
  isBackward : Bool
  deriving DecidableEq, Repr

/-- Modelled from the spec: the Entity record of section 3. -/
structure DraftEntityInstance where
  type : String
  data : String
  deriving DecidableEq, Repr

/-- Modelled from the spec: the Document Model of section 3, the blocks in
document order and the entity map, together with the selections recorded
before and after the last edit (`getSelectionAfter`, `selectionAfter` in the
source). -/
structure ContentState where
  blockMap : List ContentBlockNode
  entityMap : List (String × DraftEntityInstance)
  selectionBefore : SelectionState
  selectionAfter : SelectionState
  deriving DecidableEq, Repr

/-- Modelled from the spec: the Editor State of section 3. -/
structure EditorState where
  currentContent : ContentState
  selection : SelectionState
  inlineStyleOverride : Option (List String)
  lastChangeType : Option String
  deriving DecidableEq, Repr

/-! ## Accessors of the data model -/

/-- Modelled from the spec: `getLength`, the length of the text of a block. -/
def ContentBlockNode.getLength (b : ContentBlockNode) : Nat :=
  b.text.length

/-- Modelled from the spec: the derived collapsed property, anchor equals
focus. -/
def SelectionState.isCollapsed (s : SelectionState) : Bool :=
  s.anchorKey == s.focusKey && s.anchorOffset == s.focusOffset

/-- Modelled from the spec: the key where the selection starts, the focus key
of a backward selection and the anchor key otherwise. -/
def SelectionState.getStartKey (s : SelectionState) : String :=
  if s.isBackward then s.focusKey else s.anchorKey

/-- Modelled from the spec: the offset where the selection starts. -/
def SelectionState.getStartOffset (s : SelectionState) : Nat :=
  if s.isBackward then s.focusOffset else s.anchorOffset

/-- Modelled from the spec: the key where the selection ends. -/
def SelectionState.getEndKey (s : SelectionState) : String :=
  if s.isBackward then s.anchorKey else s.focusKey

/-- Modelled from the spec: the offset where the selection ends. -/
def SelectionState.getEndOffset (s : SelectionState) : Nat :=
  if s.isBackward then s.anchorOffset else s.focusOffset

/-- Modelled from the spec: `getBlockForKey`, the block of the given key, if
any. -/
def ContentState.getBlockForKey (c : ContentState) (key : String) : Option ContentBlockNode :=
  c.blockMap.find? (fun b => b.key == key)

/-- Modelled from the spec: `getBlockAfter`, the next block in document
order. -/
def ContentState.getBlockAfter (c : ContentState) (key : String) : Option ContentBlockNode :=
  ((c.blockMap.dropWhile (fun b => b.key != key)).drop 1).head?

/-- Modelled from the spec: `getBlockBefore`, the previous block in document
order. -/
def ContentState.getBlockBefore (c : ContentState) (key : String) : Option ContentBlockNode :=
  ((c.blockMap.reverse.dropWhile (fun b => b.key != key)).drop 1).head?

/-- The keys of the blocks of a document, in document order. -/
def ContentState.keys (c : ContentState) : List String :=
  c.blockMap.map (fun b => b.key)

/-- Block keys are globally unique (section 3, Document Model). -/
def ContentState.keysNodup (c : ContentState) : Prop :=
  c.keys.Nodup

instance (c : ContentState) : Decidable c.keysNodup := by
  unfold ContentState.keysNodup; infer_instance

/-! ## Collaborators -/

/-- The operations of the modules that `NestedRichTextEditorUtil.js` requires:
`DraftModifier` (the content mutator), `EditorState` and `RichTextEditorUtil`
(the flat editing policy). None of them is defined in the file. -/
structure Collaborators where
  /-- The operation `DraftModifier.removeRange(content, range, direction)`. -/
  removeRange : ContentState → SelectionState → String → ContentState
  /-- The operation `DraftModifier.setBlockType(content, selection, type)`. -/
  setBlockType : ContentState → SelectionState → String → ContentState
  /-- The operation `DraftModifier.applyInlineStyle(content, selection, style)`. -/
  applyInlineStyle : ContentState → SelectionState → String → ContentState
  /-- The operation `DraftModifier.removeInlineStyle(content, selection, style)`. -/
  removeInlineStyle : ContentState → SelectionState → String → ContentState
  /-- The operation `EditorState.push(editorState, content, changeType)`. -/
  push : EditorState → ContentState → String → EditorState
  /-- The operation `EditorState.setInlineStyleOverride(editorState, style)`. -/
  setInlineStyleOverride : EditorState → List String → EditorState
  /-- The method `editorState.getCurrentInlineStyle()`. -/
  getCurrentInlineStyle : EditorState → List String
  /-- The operation `RichTextEditorUtil.toggleBlockType(editorState, type)`. -/
  flatToggleBlockType : EditorState → String → EditorState
  /-- The operation `RichTextEditorUtil.toggleInlineStyle(editorState, style)`. -/
  flatToggleInlineStyle : EditorState → String → EditorState

/-! ## The handlers of NestedRichTextEditorUtil.js -/

namespace NestedRichTextEditorUtil

/-- The constant `NESTING_DISABLED_TYPES` (line 25). -/
def NESTING_DISABLED_TYPES : List String := ["code-block", "atomic"]

/-- The range that `onDelete` passes to `removeRange` (lines 74 to 77): the
selection merged with
`focusKey: blockAfter.getKey(), focusOffset: blockAfter.getLength()`. -/
def onDeleteRange (selection : SelectionState) (blockAfter : ContentBlockNode) :
    SelectionState :=
  { selection with focusKey := blockAfter.key, focusOffset := blockAfter.getLength }

/-- The handler `onDelete` (lines 52 to 86). -/
def onDelete (d : Collaborators) (editorState : EditorState) :
    Except JsError (Option EditorState) :=
  let selection := editorState.selection
  if selection.isCollapsed = false then .ok none
  else
    let content := editorState.currentContent
    let startKey := selection.getStartKey
    match content.getBlockForKey startKey with
    | none => .error .typeError
    | some block =>
      let length := block.getLength
      if selection.getStartOffset < length then .ok none
      else
        match content.getBlockAfter startKey with
        | none => .ok none
        | some blockAfter =>
          if blockAfter.type ≠ "atomic" then .ok none
          else
            let atomicBlockTarget := onDeleteRange selection blockAfter
            let withoutAtomicBlock := d.removeRange content atomicBlockTarget "forward"
            if withoutAtomicBlock ≠ content then
              .ok (some (d.push editorState withoutAtomicBlock "remove-range"))
            else .ok none

/-- The handler `tryToRemoveBlockStyle` (lines 286 to 305). -/
def tryToRemoveBlockStyle (d : Collaborators) (editorState : EditorState) :
    Except JsError (Option ContentState) :=
  let selection := editorState.selection
  let offset := selection.anchorOffset
  if selection.isCollapsed = true ∧ offset = 0 then
    let key := selection.anchorKey
    let content := editorState.currentContent
    match content.getBlockForKey key with
    | none => .error .typeError
    | some block =>
      let type := block.type
      let blockBefore := content.getBlockBefore key
      if type = "code-block" ∧
          (∃ b, blockBefore = some b ∧ b.type = "code-block" ∧ b.getLength ≠ 0) then
        .ok none
      else if type ≠ "unstyled" then
        .ok (some (d.setBlockType content selection "unstyled"))
      else .ok none
  else .ok none

/-- The condition of the first `if` of `onBackspace` (line 98), evaluated left
to right with short circuit:
`!isCollapsed || anchorOffset || focusOffset ||
 type === 'unstyled' && previousBlockKey && getBlockForKey(previousBlockKey).getType() !== 'atomic'`.
The last lookup throws when the previous-sibling key names no block. -/
def onBackspaceGuard (content : ContentState) (selection : SelectionState)
    (currentBlock : ContentBlockNode) : Except JsError Bool :=
  if selection.isCollapsed = false ∨ selection.anchorOffset ≠ 0 ∨ selection.focusOffset ≠ 0 then
    .ok true
  else if currentBlock.type = "unstyled" then
    match currentBlock.prevSibling with
    | none => .ok false
    | some previousBlockKey =>
      match content.getBlockForKey previousBlockKey with
      | none => .error .typeError
      | some previousBlock => .ok (decide (previousBlock.type ≠ "atomic"))
  else .ok false

/-- The range that `onBackspace` passes to `removeRange` (lines 107 to 113):
the selection merged with
`focusKey: blockBefore.getKey(), focusOffset: blockBefore.getText().length,
 anchorKey: startKey, anchorOffset: content.getBlockForKey(startKey).getText().length,
 isBackward: false`.
Here `currentBlock` is the block of `startKey`. -/
def onBackspaceRange (selection : SelectionState) (startKey : String)
    (currentBlock blockBefore : ContentBlockNode) : SelectionState :=
  { selection with
    focusKey := blockBefore.key
    focusOffset := blockBefore.text.length
    anchorKey := startKey
    anchorOffset := currentBlock.text.length
    isBackward := false }

/-- The second attempt of `onBackspace` (lines 129 to 135): strip the block
style and commit it as a change of block type. -/
def onBackspaceStyleAttempt (d : Collaborators) (editorState : EditorState) :
    Except JsError (Option EditorState) :=
  match tryToRemoveBlockStyle d editorState with
  | .error e => .error e
  | .ok (some withoutBlockStyle) =>
    .ok (some (d.push editorState withoutBlockStyle "change-block-type"))
  | .ok none => .ok none

/-- The document `withoutAtomicBlock` of `onBackspace` (lines 107 to 115): what
`removeRange` returns for the range above in the direction `forward`, merged
with `selectionAfter: selection`. -/
def onBackspaceDocument (d : Collaborators) (content : ContentState)
    (selection : SelectionState) (startKey : String)
    (currentBlock blockBefore : ContentBlockNode) : ContentState :=
  { d.removeRange content
      (onBackspaceRange selection startKey currentBlock blockBefore) "forward" with
    selectionAfter := selection }

/-- The first attempt of `onBackspace` (lines 102 to 120): when the block
before in document order is atomic, remove the range, set the selection-after
of the result to the selection, and commit it if it is not the current
document. `currentBlock` is the block of the start key. The result `none`
means that the handler goes on to the second attempt. -/
def onBackspaceAtomicAttempt (d : Collaborators) (editorState : EditorState)
    (currentBlock : ContentBlockNode) : Option EditorState :=
  let selection := editorState.selection
  let content := editorState.currentContent
  let startKey := selection.getStartKey
  match content.getBlockBefore startKey with
  | none => none
  | some blockBefore =>
    if blockBefore.type = "atomic" then
      let withoutAtomicBlock :=
        onBackspaceDocument d content selection startKey currentBlock blockBefore
      if withoutAtomicBlock ≠ content then
        some (d.push editorState withoutAtomicBlock "remove-range")
      else none
    else none

/-- The handler `onBackspace` (lines 92 to 136). -/
def onBackspace (d : Collaborators) (editorState : EditorState) :
    Except JsError (Option EditorState) :=
  let selection := editorState.selection
  let content := editorState.currentContent
  match content.getBlockForKey selection.getStartKey with
  | none => .error .typeError
  | some currentBlock =>
    match onBackspaceGuard content selection currentBlock with
    | .error e => .error e
    | .ok true => .ok none
    | .ok false =>
      match onBackspaceAtomicAttempt d editorState currentBlock with
      | some committed => .ok (some committed)
      | none => onBackspaceStyleAttempt d editorState

/-- The handler `toggleBlockType` (lines 148 to 176). -/
def toggleBlockType (d : Collaborators) (editorState : EditorState) (blockType : String) :
    Except JsError EditorState :=
  let selection := editorState.selection
  let content := editorState.currentContent
  match content.getBlockForKey selection.getStartKey with
  | none => .error .typeError
  | some currentBlock =>
    let haveChildren := currentBlock.children ≠ []
    let isSelectionCollapsed := selection.isCollapsed = true
    let isMultiBlockSelection := selection.anchorKey ≠ selection.focusKey
    let isUnsupportedNestingBlockType := blockType ∈ NESTING_DISABLED_TYPES
    let isCurrentBlockOfUnsupportedNestingBlockType :=
      currentBlock.type ∈ NESTING_DISABLED_TYPES
    if (isMultiBlockSelection ∨ haveChildren) ∧ isUnsupportedNestingBlockType then
      .ok editorState
    else if isCurrentBlockOfUnsupportedNestingBlockType ∨ isSelectionCollapsed ∨
        isUnsupportedNestingBlockType ∨ isMultiBlockSelection ∨
        currentBlock.type = blockType ∨ currentBlock.children ≠ [] then
      .ok (d.flatToggleBlockType editorState blockType)
    else .ok editorState

/-- The handler `toggleCode` (lines 231 to 241). -/
def toggleCode (d : Collaborators) (editorState : EditorState) : EditorState :=
  let selection := editorState.selection
  let anchorKey := selection.anchorKey
  let focusKey := selection.focusKey
  if selection.isCollapsed = true ∨ anchorKey ≠ focusKey then
    d.flatToggleBlockType editorState "code-block"
  else d.flatToggleInlineStyle editorState "CODE"

/-- The handler `toggleInlineStyle` (lines 249 to 274). -/
def toggleInlineStyle (d : Collaborators) (editorState : EditorState) (inlineStyle : String) :
    EditorState :=
  let selection := editorState.selection
  let currentStyle := d.getCurrentInlineStyle editorState
  if selection.isCollapsed = true then
    d.setInlineStyleOverride editorState
      (if inlineStyle ∈ currentStyle then currentStyle.erase inlineStyle
       else currentStyle ++ [inlineStyle])
  else
    let content := editorState.currentContent
    let newContent :=
      if inlineStyle ∈ currentStyle then d.removeInlineStyle content selection inlineStyle
      else d.applyInlineStyle content selection inlineStyle
    d.push editorState newContent "change-inline-style"

/-- The handler `handleKeyCommand` (lines 28 to 50). -/
def handleKeyCommand (d : Collaborators) (editorState : EditorState) (command : String) :
    Except JsError (Option EditorState) :=
  match command with
  | "bold" => .ok (some (toggleInlineStyle d editorState "BOLD"))
  | "italic" => .ok (some (toggleInlineStyle d editorState "ITALIC"))
  | "underline" => .ok (some (toggleInlineStyle d editorState "UNDERLINE"))
  | "code" => .ok (some (toggleCode d editorState))
  | "backspace" => onBackspace d editorState
  | "backspace-word" => onBackspace d editorState
  | "backspace-to-start-of-line" => onBackspace d editorState
  | "delete" => onDelete d editorState
  | "delete-word" => onDelete d editorState
  | "delete-to-end-of-block" => onDelete d editorState
  | _ => .ok none

end NestedRichTextEditorUtil

/-! ## A reference implementation of the collaborators

The content mutator has flat-list semantics per call (section 2): a range
covers the blocks from the one of its start key up to the one of its end key,
walking forward in document order. -/

/-- The keys a range covers: those of the blocks from the start key on, up to
the first block of the end key, and the end key itself. -/
def ContentState.rangeKeys (c : ContentState) (startKey endKey : String) : List String :=
  ((c.blockMap.dropWhile (fun b => b.key != startKey)).takeWhile
    (fun b => b.key != endKey)).map (fun b => b.key) ++ [endKey]

namespace DraftModifier

/-- Modelled from the spec: `DraftModifier.removeRange` is not under src/. A
collapsed range is a no-op that returns the identical document. Otherwise the
start block keeps its text before the start offset, followed by what the end
block has after the end offset; every other block the range covers is
destroyed, and the selection-after is the caret at the start of the range. -/
def removeRange (content : ContentState) (rangeToRemove : SelectionState) (_direction : String) :
    ContentState :=
  if rangeToRemove.isCollapsed = true then content
  else
    let startKey := rangeToRemove.getStartKey
    let startOffset := rangeToRemove.getStartOffset
    let endKey := rangeToRemove.getEndKey
    let endOffset := rangeToRemove.getEndOffset
    match content.getBlockForKey startKey, content.getBlockForKey endKey with
    | some startBlock, some endBlock =>
      let modifiedStart : ContentBlockNode :=
        { startBlock with
          text := startBlock.text.take startOffset ++ endBlock.text.drop endOffset
          characterList :=
            startBlock.characterList.take startOffset ++ endBlock.characterList.drop endOffset }
      let covered := content.rangeKeys startKey endKey
      { content with
        blockMap := content.blockMap.filterMap (fun b =>
          if b.key = startKey then some modifiedStart
          else if b.key ∈ covered then none
          else some b)
        selectionBefore := rangeToRemove
        selectionAfter :=
          { rangeToRemove with
            anchorKey := startKey
            anchorOffset := startOffset
            focusKey := startKey
            focusOffset := startOffset
            isBackward := false } }
    | _, _ => content

/-- Modelled from the spec: `DraftModifier.setBlockType` is not under src/.
Every block the selection covers gets the given type; the depth, which is
nonzero only for list items, is reset. -/
def setBlockType (content : ContentState) (selection : SelectionState) (blockType : String) :
    ContentState :=
  let covered := content.rangeKeys selection.getStartKey selection.getEndKey
  { content with
    blockMap := content.blockMap.map (fun b =>
      if b.key ∈ covered then { b with type := blockType, depth := 0 } else b)
    selectionBefore := selection
    selectionAfter := selection }

/-- Apply `f` to the characters whose index lies in `[lo, hi)`; `i` is the
index of the head of the list. -/
def modifyChars (f : CharacterMetadata → CharacterMetadata) (lo hi : Nat) :
    Nat → List CharacterMetadata → List CharacterMetadata
  | _, [] => []
  | i, ch :: rest =>
    (if lo ≤ i ∧ i < hi then f ch else ch) :: modifyChars f lo hi (i + 1) rest

/-- Modelled from the spec: the common part of `applyInlineStyle` and
`removeInlineStyle`, which are not under src/. In each covered block the
characters of the range are changed by `f`: from the start offset in the start
block, up to the end offset in the end block, all of them in between. -/
def modifyInlineStyle (content : ContentState) (selection : SelectionState)
    (f : CharacterMetadata → CharacterMetadata) : ContentState :=
  let startKey := selection.getStartKey
  let endKey := selection.getEndKey
  let covered := content.rangeKeys startKey endKey
  { content with
    blockMap := content.blockMap.map (fun b =>
      if b.key ∈ covered then
        let sliceStart := if b.key = startKey then selection.getStartOffset else 0
        let sliceEnd := if b.key = endKey then selection.getEndOffset else b.getLength
        { b with characterList := modifyChars f sliceStart sliceEnd 0 b.characterList }
      else b)
    selectionBefore := selection
    selectionAfter := selection }

/-- Modelled from the spec: `DraftModifier.applyInlineStyle`, the style is
added to every character of the range. -/
def applyInlineStyle (content : ContentState) (selection : SelectionState) (inlineStyle : String) :
    ContentState :=
  modifyInlineStyle content selection (fun ch =>
    if inlineStyle ∈ ch.style then ch else { ch with style := ch.style ++ [inlineStyle] })

/-- Modelled from the spec: `DraftModifier.removeInlineStyle`, the style is
removed from every character of the range. -/
def removeInlineStyle (content : ContentState) (selection : SelectionState)
    (inlineStyle : String) : ContentState :=
  modifyInlineStyle content selection (fun ch =>
    { ch with style := ch.style.filter (fun s => s != inlineStyle) })

end DraftModifier

/-- Modelled from the spec: `EditorState.push` is not under src/. A push makes
the next committed snapshot: its document is the pushed one, its selection is
replaced wholesale by the selection-after of that document, its label is the
change type. The inline-style override survives only the change types that do
not touch the text. -/
def EditorState.push (editorState : EditorState) (contentState : ContentState)
    (changeType : String) : EditorState :=
  { currentContent := contentState
    selection := contentState.selectionAfter
    inlineStyleOverride :=
      if changeType ∈ ["adjust-depth", "change-block-type", "split-block"] then
        editorState.inlineStyleOverride
      else none
    lastChangeType := some changeType }

/-- Modelled from the spec: `EditorState.setInlineStyleOverride` is not under
src/. Only the override changes. -/
def EditorState.setInlineStyleOverride (editorState : EditorState) (style : List String) :
    EditorState :=
  { editorState with inlineStyleOverride := some style }

/-- Modelled from the spec: `getCurrentInlineStyle` is not under src/. The
override when there is one, else the style set at the position where the
selection starts (of no character: the empty set). -/
def EditorState.getCurrentInlineStyle (editorState : EditorState) : List String :=
  match editorState.inlineStyleOverride with
  | some style => style
  | none =>
    match editorState.currentContent.getBlockForKey editorState.selection.getStartKey with
    | none => []
    | some block =>
      match block.characterList.get? editorState.selection.getStartOffset with
      | some ch => ch.style
      | none => []

namespace RichTextEditorUtil

/-- Modelled from the spec: the block-type toggle of the flat editing policy
is not under src/. The blocks of the selection get the target type, or
`unstyled` when the block at the start of the selection has the target type
already; the result is committed as a change of block type. The policy knows
nothing of children. -/
def toggleBlockType (editorState : EditorState) (blockType : String) : EditorState :=
  let selection := editorState.selection
  let content := editorState.currentContent
  let typeToSet :=
    match content.getBlockForKey selection.getStartKey with
    | some block => if block.type = blockType then "unstyled" else blockType
    | none => blockType
  editorState.push (DraftModifier.setBlockType content selection typeToSet) "change-block-type"

/-- Modelled from the spec: the inline-style toggle of the flat editing policy
is not under src/; it is the rule of section 4.6. -/
def toggleInlineStyle (editorState : EditorState) (inlineStyle : String) : EditorState :=
  let selection := editorState.selection
  let currentStyle := editorState.getCurrentInlineStyle
  if selection.isCollapsed = true then
    editorState.setInlineStyleOverride
      (if inlineStyle ∈ currentStyle then currentStyle.erase inlineStyle
       else currentStyle ++ [inlineStyle])
  else
    let content := editorState.currentContent
    let newContent :=
      if inlineStyle ∈ currentStyle then DraftModifier.removeInlineStyle content selection inlineStyle
      else DraftModifier.applyInlineStyle content selection inlineStyle
    editorState.push newContent "change-inline-style"

end RichTextEditorUtil

/-- The collaborators as the specification describes them. -/
def specCollaborators : Collaborators where
  removeRange := DraftModifier.removeRange
  setBlockType := DraftModifier.setBlockType
  applyInlineStyle := DraftModifier.applyInlineStyle
  removeInlineStyle := DraftModifier.removeInlineStyle
  push := EditorState.push
  setInlineStyleOverride := EditorState.setInlineStyleOverride
  getCurrentInlineStyle := EditorState.getCurrentInlineStyle
  flatToggleBlockType := RichTextEditorUtil.toggleBlockType
  flatToggleInlineStyle := RichTextEditorUtil.toggleInlineStyle

/-! ## The nesting invariant and concrete documents -/

/-- No block of a nesting-disallowed type has a child (section 3, Block). -/
def ContentState.nestingInvariant (c : ContentState) : Prop :=
  ∀ b ∈ c.blockMap, b.type ∈ NestedRichTextEditorUtil.NESTING_DISABLED_TYPES → b.children = []

instance (c : ContentState) : Decidable c.nestingInvariant := by
  unfold ContentState.nestingInvariant; infer_instance

/-- A block without style, entity, depth or links. -/
def plainBlock (key type : String) (text : String) : ContentBlockNode :=
  { key := key
    type := type
    text := text.toList
    characterList := text.toList.map (fun _ => { style := [], entity := none })
    depth := 0
    parent := none
    children := []
    prevSibling := none
    nextSibling := none }

/-- The caret at the given offset of the given block. -/
def caret (key : String) (offset : Nat) : SelectionState :=
  { anchorKey := key, anchorOffset := offset, focusKey := key, focusOffset := offset,
    isBackward := false }

/-- The editor state of a document given by its blocks, with the given
selection, no override and no change type yet. -/
def editorOf (blocks : List ContentBlockNode) (selection : SelectionState) : EditorState :=
  { currentContent :=
      { blockMap := blocks, entityMap := [], selectionBefore := selection,
        selectionAfter := selection }
    selection := selection
    inlineStyleOverride := none
    lastChangeType := none }

/-- The selection from `(key, from)` to `(key, to)` inside one block. -/
def rangeIn (key : String) (start stop : Nat) : SelectionState :=
  { anchorKey := key, anchorOffset := start, focusKey := key, focusOffset := stop,
    isBackward := false }

/-- A document of two blocks: the unstyled block `p` has the child `c`. The
caret is in `p`. -/
def parentWithChild : EditorState :=
  editorOf
    [ { plainBlock "p" "unstyled" "" with children := ["c"] },
      { plainBlock "c" "unstyled" "leaf" with parent := some "p" } ]
    (caret "p" 0)

/-- A single unstyled block with the text Hello. -/
def helloDoc (selection : SelectionState) : EditorState :=
  editorOf [plainBlock "a" "unstyled" "Hello"] selection

/-- Scenario 2: the unstyled block Hi followed by an atomic block of one
character, the caret at the end of Hi. -/
def hiAtomic : EditorState :=
  editorOf [plainBlock "a" "unstyled" "Hi", plainBlock "b" "atomic" " "] (caret "a" 2)

/-- Scenario 3: a single code block with the text x=1, the caret at its
start. -/
def codeDoc : EditorState :=
  editorOf [plainBlock "a" "code-block" "x=1"] (caret "a" 0)

/-- An atomic block of one character followed by the unstyled block Hi, linked
as siblings, the caret at the start of Hi. -/
def atomicThenHi : EditorState :=
  editorOf
    [ { plainBlock "b" "atomic" " " with nextSibling := some "a" },
      { plainBlock "a" "unstyled" "Hi" with prevSibling := some "b" } ]
    (caret "a" 0)

/-- An atomic block of one character, the unstyled block Hi and the unstyled
block tail, linked as siblings, the caret at the start of Hi. -/
def atomicHiTail : EditorState :=
  editorOf
    [ { plainBlock "b" "atomic" " " with nextSibling := some "a" },
      { plainBlock "a" "unstyled" "Hi" with prevSibling := some "b", nextSibling := some "c" },
      { plainBlock "c" "unstyled" "tail" with prevSibling := some "a" } ]
    (caret "a" 0)

/-- The document of the editor state a handler returns, if it returns one. -/
def committedDocument (result : Except JsError (Option EditorState)) : Option ContentState :=
  match result with
  | .ok (some editorState) => some editorState.currentContent
  | _ => none

/-- The change type of the editor state a handler returns, if it returns
one. -/
def committedChangeType (result : Except JsError (Option EditorState)) : Option String :=
  match result with
  | .ok (some editorState) => editorState.lastChangeType
  | _ => none

/-- Collaborators whose `removeRange` empties the document and records the
range it is given as the selection-before of its result. -/
def recordingCollaborators : Collaborators :=
  { specCollaborators with
    removeRange := fun content range _ => { content with blockMap := [], selectionBefore := range } }

/-! ## The tab handler and the link query -/

/-- Modelled from the spec: the tab key event of section 4.8, with its reverse
modifier and the mark that the default key behaviour is intercepted. The class
of the event is not part of `NestedRichTextEditorUtil.js`. -/
structure KeyboardEvent where
  shiftKey : Bool
  defaultPrevented : Bool
  deriving DecidableEq, Repr

/-- Modelled from the spec: `event.preventDefault()`, the event is marked as
intercepted. -/
def KeyboardEvent.preventDefault (event : KeyboardEvent) : KeyboardEvent :=
  { event with defaultPrevented := true }

namespace NestedRichTextEditorUtil

/-- The handler `onTab` (lines 205 to 229). The depth adjuster required at
line 21 is a parameter, the event is passed through: the result is the editor
state together with the event as the handler leaves it. -/
def onTab (d : Collaborators)
    (adjustBlockDepthForContentState : ContentState → SelectionState → Int → Nat → ContentState)
    (event : KeyboardEvent) (editorState : EditorState) (maxDepth : Nat) :
    Except JsError (EditorState × KeyboardEvent) :=
  let selection := editorState.selection
  let key := selection.anchorKey
  if key ≠ selection.focusKey then .ok (editorState, event)
  else
    let content := editorState.currentContent
    match content.getBlockForKey key with
    | none => .error .typeError
    | some block =>
      let type := block.type
      if type ≠ "unordered-list-item" ∧ type ≠ "ordered-list-item" then
        .ok (editorState, event)
      else
        let event := event.preventDefault
        let depth := block.depth
        if event.shiftKey = false ∧ depth = maxDepth then .ok (editorState, event)
        else
          let withAdjustment :=
            adjustBlockDepthForContentState content selection
              (if event.shiftKey = true then -1 else 1) maxDepth
          .ok (d.push editorState withAdjustment "adjust-depth", event)

/-- The callback of `some` in `currentBlockContainsLink` (lines 182 to 185),
run over the characters in order with short circuit:
`!!entity && entityMap.__get(entity).getType() === 'LINK'`. The lookup of an
entity key that the map does not have throws. -/
def someLink (entityMap : List (String × DraftEntityInstance)) :
    List CharacterMetadata → Except JsError Bool
  | [] => .ok false
  | v :: rest =>
    match v.entity with
    | none => someLink entityMap rest
    | some entity =>
      match entityMap.lookup entity with
      | none => .error .typeError
      | some entityInstance =>
        if entityInstance.type = "LINK" then .ok true else someLink entityMap rest

/-- The query `currentBlockContainsLink` (lines 178 to 186): the characters of
the block of the anchor key, sliced from the start offset to the end offset of
the selection. -/
def currentBlockContainsLink (editorState : EditorState) : Except JsError Bool :=
  let selection := editorState.selection
  let contentState := editorState.currentContent
  let entityMap := contentState.entityMap
  match contentState.getBlockForKey selection.anchorKey with
  | none => .error .typeError
  | some block =>
    someLink entityMap
      ((block.characterList.drop selection.getStartOffset).take
        (selection.getEndOffset - selection.getStartOffset))

end NestedRichTextEditorUtil

/-- Modelled from the spec: `adjustBlockDepthForContentState` is not under
src/. The depth of every block the selection covers is changed by the
adjustment and bounded by `[0, maxDepth]`. -/
def adjustBlockDepthForContentState (content : ContentState) (selection : SelectionState)
    (adjustment : Int) (maxDepth : Nat) : ContentState :=
  let covered := content.rangeKeys selection.getStartKey selection.getEndKey
  { content with
    blockMap := content.blockMap.map (fun b =>
      if b.key ∈ covered then
        { b with depth := (max 0 (min ((b.depth : Int) + adjustment) (maxDepth : Int))).toNat }
      else b)
    selectionBefore := selection
    selectionAfter := selection }

/-- A list item of the given depth. -/
def listItem (key : String) (depth : Nat) (text : String) : ContentBlockNode :=
  { plainBlock key "unordered-list-item" text with depth := depth }

/-- Scenario 5: a single unordered list item at depth 3, the caret in it. -/
def listDoc : EditorState :=
  editorOf [listItem "a" 3 "item"] (caret "a" 0)

/-- The tab key without modifier, not yet intercepted. -/
def tabKey : KeyboardEvent :=
  { shiftKey := false, defaultPrevented := false }

/-- The character of index `i` of the block `b` lies in the range of the
selection: the block is one the selection covers, the index is not before the
start offset in the start block and is before the end offset in the end block
(before the length of the block elsewhere). -/
def SelectionState.coversChar (selection : SelectionState) (content : ContentState)
    (b : ContentBlockNode) (i : Nat) : Prop :=
  b.key ∈ content.rangeKeys selection.getStartKey selection.getEndKey ∧
  (if b.key = selection.getStartKey then selection.getStartOffset else 0) ≤ i ∧
  i < (if b.key = selection.getEndKey then selection.getEndOffset else b.getLength)

instance (selection : SelectionState) (content : ContentState) (b : ContentBlockNode) (i : Nat) :
    Decidable (selection.coversChar content b i) := by
  unfold SelectionState.coversChar; infer_instance

/-- The annotation of the character of index `i` in the block of the given
key, if there is one. -/
def ContentState.charAt (c : ContentState) (key : String) (i : Nat) : Option CharacterMetadata :=
  (c.getBlockForKey key).bind (fun b => b.characterList.get? i)

/-- What the inline-style toggle does to one character of the range: the
style is removed when the current style has it, added otherwise. -/
def styleChange (inlineStyle : String) (currentStyle : List String) (ch : CharacterMetadata) :
    CharacterMetadata :=
  if inlineStyle ∈ currentStyle then
    { ch with style := ch.style.filter (fun s => s != inlineStyle) }
  else if inlineStyle ∈ ch.style then ch
  else { ch with style := ch.style ++ [inlineStyle] }

/-- The block Hello whose middle character alone is bold, with the range `ell`
selected. -/
def mixedHello : EditorState :=
  editorOf
    [ { plainBlock "a" "unstyled" "Hello" with
        characterList :=
          [ { style := [], entity := none }, { style := [], entity := none },
            { style := ["BOLD"], entity := none }, { style := [], entity := none },
            { style := [], entity := none } ] } ]
    (rangeIn "a" 1 4)

/-- The styles of the characters of a document, block by block. -/
def ContentState.styles (c : ContentState) : List (List (List String)) :=
  c.blockMap.map (fun b => b.characterList.map (fun ch => ch.style))

/-- Two blocks, Hello and World; the fourth character of Hello refers to the
entity `1`, which the entity map has as a link. -/
def linkDoc (selection : SelectionState) : EditorState :=
  { currentContent :=
      { blockMap :=
          [ { plainBlock "a" "unstyled" "Hello" with
              characterList :=
                [ { style := [], entity := none }, { style := [], entity := none },
                  { style := [], entity := none }, { style := [], entity := some "1" },
                  { style := [], entity := none } ] },
            plainBlock "b" "unstyled" "World" ]
        entityMap := [("1", { type := "LINK", data := "url" })]
        selectionBefore := selection
        selectionAfter := selection }
    selection := selection
    inlineStyleOverride := none
    lastChangeType := none }

/-- The selection from the start of the block `a` to offset 2 of the block
`b`. -/
def acrossBlocks : SelectionState :=
  { anchorKey := "a", anchorOffset := 0, focusKey := "b", focusOffset := 2,
    isBackward := false }

/-- The selection is valid in the document: both keys name a block and both
offsets lie within the length of that block (section 3, Selection). -/
def SelectionState.validIn (s : SelectionState) (c : ContentState) : Prop :=
  (∃ b, c.getBlockForKey s.anchorKey = some b ∧ s.anchorOffset ≤ b.getLength) ∧
  (∃ b, c.getBlockForKey s.focusKey = some b ∧ s.focusOffset ≤ b.getLength)

/-- The editor state after the first Tab of scenario 5. -/
def listDocAfterTab : EditorState :=
  EditorState.push listDoc
    (adjustBlockDepthForContentState listDoc.currentContent listDoc.selection 1 4)
    "adjust-depth"

open NestedRichTextEditorUtil

/-! ## Lemmas on the block list and on the reference content mutator -/

/-- The block that follows the first block of key `k` is in the list, and its
key is not `k` when the keys are distinct. -/
theorem after_mem_ne (k : String) : ∀ (l : List ContentBlockNode) (n : ContentBlockNode),
    ((l.dropWhile (fun b => b.key != k)).drop 1).head? = some n →
    n ∈ l ∧ ((l.map (fun b => b.key)).Nodup → n.key ≠ k)
  | [], n, h => by simp at h
  | b :: l, n, h => by
    by_cases hk : b.key = k
    · have hd : (b :: l).dropWhile (fun b => b.key != k) = b :: l := by
        rw [List.dropWhile_cons]; simp [hk]
      rw [hd] at h
      cases l with
      | nil => simp at h
      | cons x l' =>
        simp at h
        subst h
        refine ⟨by simp, ?_⟩
        intro hn
        simp at hn
        intro hx
        exact hn.1.1 (by rw [hk, hx])
    · have hd : (b :: l).dropWhile (fun b => b.key != k) = l.dropWhile (fun b => b.key != k) := by
        rw [List.dropWhile_cons]; simp [hk]
      rw [hd] at h
      obtain ⟨h1, h2⟩ := after_mem_ne k l n h
      refine ⟨List.mem_cons_of_mem _ h1, ?_⟩
      intro hn
      simp at hn
      exact h2 (by simpa using hn.2)

/-- With distinct keys, a block of the list is the one found under its key. -/
theorem find_of_mem_nodup : ∀ (l : List ContentBlockNode) (n : ContentBlockNode),
    (l.map (fun b => b.key)).Nodup → n ∈ l → l.find? (fun b => b.key == n.key) = some n
  | [], n, _, h => by simp at h
  | b :: l, n, hn, h => by
    simp at hn
    rcases List.mem_cons.1 h with h | h
    · subst h; simp
    · have : b.key ≠ n.key := fun e => hn.1 n h e.symm
      rw [List.find?_cons_of_neg _ (by simpa using this)]
      exact find_of_mem_nodup l n (by simpa using hn.2) h



/-- The block found under a key has that key. -/
theorem key_of_getBlockForKey {c : ContentState} {k : String} {b : ContentBlockNode}
    (h : c.getBlockForKey k = some b) : b.key = k := by
  have := List.find?_some h
  simpa using this

/-- After the removal, the block found under the start key is the modified
start block. -/
theorem find_filterMap_start (k : String) (m : ContentBlockNode) (hm : m.key = k)
    (covered : List String) :
    ∀ (l : List ContentBlockNode) (sb : ContentBlockNode),
      l.find? (fun b => b.key == k) = some sb →
      (l.filterMap (fun b =>
        if b.key = k then some m else if b.key ∈ covered then none else some b)).find?
        (fun b => b.key == k) = some m
  | [], _, h => by simp at h
  | b :: l, sb, h => by
    by_cases hk : b.key = k
    · simp [List.filterMap_cons, hk, hm]
    · rw [List.find?_cons_of_neg _ (by simpa using hk)] at h
      have ih := find_filterMap_start k m hm covered l sb h
      by_cases hc : b.key ∈ covered
      · simpa [List.filterMap_cons, hk, hc] using ih
      · simp only [List.filterMap_cons, hk, hc, if_false]
        rw [List.find?_cons_of_neg _ (by simpa using hk)]
        exact ih

/-- The blocks that `removeRange` leaves, for a range that is not collapsed
and whose two blocks exist. -/
theorem removeRange_blockMap (c : ContentState) (r : SelectionState) (dir : String)
    (sb eb : ContentBlockNode) (hnc : r.isCollapsed = false)
    (hs : c.getBlockForKey r.getStartKey = some sb)
    (he : c.getBlockForKey r.getEndKey = some eb) :
    (DraftModifier.removeRange c r dir).blockMap =
      c.blockMap.filterMap (fun b =>
        if b.key = r.getStartKey then
          some { sb with
            text := sb.text.take r.getStartOffset ++ eb.text.drop r.getEndOffset
            characterList :=
              sb.characterList.take r.getStartOffset ++ eb.characterList.drop r.getEndOffset }
        else if b.key ∈ c.rangeKeys r.getStartKey r.getEndKey then none
        else some b) := by
  simp [DraftModifier.removeRange, hnc, hs, he]

/-- The end block of a range over two blocks is destroyed. -/
theorem removeRange_endKey_not_mem (c : ContentState) (r : SelectionState) (dir : String)
    (sb eb : ContentBlockNode) (hnc : r.isCollapsed = false)
    (hs : c.getBlockForKey r.getStartKey = some sb)
    (he : c.getBlockForKey r.getEndKey = some eb)
    (hne : r.getStartKey ≠ r.getEndKey) :
    r.getEndKey ∉ (DraftModifier.removeRange c r dir).keys := by
  unfold ContentState.keys
  rw [removeRange_blockMap c r dir sb eb hnc hs he]
  intro hmem
  obtain ⟨x, hx, hxk⟩ := List.mem_map.1 hmem
  obtain ⟨b, _, hb⟩ := List.mem_filterMap.1 hx
  by_cases hk : b.key = r.getStartKey
  · rw [if_pos hk] at hb
    have hsk := key_of_getBlockForKey hs
    have : x.key = sb.key := by
      rw [← Option.some.inj hb]
    exact hne (by rw [← hxk, this, hsk])
  · rw [if_neg hk] at hb
    by_cases hc : b.key ∈ c.rangeKeys r.getStartKey r.getEndKey
    · rw [if_pos hc] at hb; exact Option.noConfusion hb
    · rw [if_neg hc] at hb
      have hbx : b = x := Option.some.inj hb
      apply hc
      rw [hbx, hxk]
      simp [ContentState.rangeKeys]

/-- The start block of a removed range keeps its text before the start offset,
followed by the text of the end block after the end offset. -/
theorem removeRange_start_block (c : ContentState) (r : SelectionState) (dir : String)
    (sb eb : ContentBlockNode) (hnc : r.isCollapsed = false)
    (hs : c.getBlockForKey r.getStartKey = some sb)
    (he : c.getBlockForKey r.getEndKey = some eb) :
    (DraftModifier.removeRange c r dir).getBlockForKey r.getStartKey =
      some { sb with
        text := sb.text.take r.getStartOffset ++ eb.text.drop r.getEndOffset
        characterList :=
          sb.characterList.take r.getStartOffset ++ eb.characterList.drop r.getEndOffset } := by
  unfold ContentState.getBlockForKey
  rw [removeRange_blockMap c r dir sb eb hnc hs he]
  exact find_filterMap_start r.getStartKey
    { sb with
      text := sb.text.take r.getStartOffset ++ eb.text.drop r.getEndOffset
      characterList :=
        sb.characterList.take r.getStartOffset ++ eb.characterList.drop r.getEndOffset }
    (key_of_getBlockForKey hs : sb.key = r.getStartKey) _ _ sb hs

/-- A state passes the guard of `onBackspace` only with a caret at offset 0. -/
theorem guard_false {content : ContentState} {selection : SelectionState}
    {currentBlock : ContentBlockNode}
    (h : onBackspaceGuard content selection currentBlock = .ok false) :
    selection.isCollapsed = true ∧ selection.anchorOffset = 0 ∧ selection.focusOffset = 0 := by
  unfold onBackspaceGuard at h
  by_cases h3 : selection.isCollapsed = false ∨ selection.anchorOffset ≠ 0 ∨
      selection.focusOffset ≠ 0
  · rw [if_pos h3] at h
    cases h
  · simp only [not_or, not_not, Bool.not_eq_false] at h3
    exact h3

/-- The block before the first block of key `k` is in the document, and its
key is not `k` when the keys are distinct. -/
theorem before_mem_ne (c : ContentState) (k : String) (n : ContentBlockNode)
    (h : c.getBlockBefore k = some n) :
    n ∈ c.blockMap ∧ (c.keysNodup → n.key ≠ k) := by
  obtain ⟨h1, h2⟩ := after_mem_ne k c.blockMap.reverse n h
  refine ⟨List.mem_reverse.1 h1, fun hn => h2 ?_⟩
  rw [List.map_reverse]
  exact List.nodup_reverse.2 hn

/-- The start key of a collapsed selection is its anchor key. -/
theorem startKey_of_collapsed {s : SelectionState} (h : s.isCollapsed = true) :
    s.getStartKey = s.anchorKey := by
  unfold SelectionState.isCollapsed at h
  simp only [Bool.and_eq_true, beq_iff_eq] at h
  unfold SelectionState.getStartKey
  split
  · exact h.1.symm
  · rfl

/-- The end key of a collapsed selection is its anchor key. -/
theorem endKey_of_collapsed {s : SelectionState} (h : s.isCollapsed = true) :
    s.getEndKey = s.anchorKey := by
  unfold SelectionState.isCollapsed at h
  simp only [Bool.and_eq_true, beq_iff_eq] at h
  unfold SelectionState.getEndKey
  split
  · rfl
  · exact h.1.symm

/-- After `setBlockType`, the block found under the end key of the selection
has the new type. -/
theorem setBlockType_endBlock (content : ContentState) (selection : SelectionState)
    (blockType : String) (block : ContentBlockNode)
    (h : content.getBlockForKey selection.getEndKey = some block) :
    (DraftModifier.setBlockType content selection blockType).getBlockForKey selection.getEndKey
      = some { block with type := blockType, depth := 0 } := by
  have hk : block.key = selection.getEndKey := key_of_getBlockForKey h
  unfold ContentState.getBlockForKey at h ⊢
  simp only [DraftModifier.setBlockType, List.find?_map]
  have hfun : ((fun b : ContentBlockNode => b.key == selection.getEndKey) ∘
      fun b : ContentBlockNode =>
        if b.key ∈ content.rangeKeys selection.getStartKey selection.getEndKey then
          { b with type := blockType, depth := 0 }
        else b) = fun b => b.key == selection.getEndKey := by
    funext b
    simp only [Function.comp]
    split <;> rfl
  rw [hfun, h]
  simp [hk, ContentState.rangeKeys]

/-- The last branch of `onDelete`: when every test before it passes and the
removal changes the document, the result is committed. -/
theorem onDelete_commits (d : Collaborators) (editorState : EditorState)
    (block blockAfter : ContentBlockNode)
    (hcollapsed : editorState.selection.isCollapsed = true)
    (hblock : editorState.currentContent.getBlockForKey editorState.selection.getStartKey
      = some block)
    (hend : ¬ editorState.selection.getStartOffset < block.getLength)
    (hafter : editorState.currentContent.getBlockAfter editorState.selection.getStartKey
      = some blockAfter)
    (hatomic : blockAfter.type = "atomic")
    (hchange : d.removeRange editorState.currentContent
      (onDeleteRange editorState.selection blockAfter) "forward" ≠ editorState.currentContent) :
    onDelete d editorState = .ok (some (d.push editorState
      (d.removeRange editorState.currentContent
        (onDeleteRange editorState.selection blockAfter) "forward") "remove-range")) := by
  unfold onDelete
  simp only [hcollapsed, hblock, hafter]
  simp [hend, hatomic, hchange]

/-! ## Lemmas for the inline styles, the depth, the links and the selection -/

/-- A map that keeps the keys commutes with the lookup of a key. -/
theorem find_map_key (k : String) (g : ContentBlockNode → ContentBlockNode)
    (hg : ∀ b, (g b).key = b.key) (l : List ContentBlockNode) :
    (l.map g).find? (fun b => b.key == k) = (l.find? (fun b => b.key == k)).map g := by
  rw [List.find?_map]
  have : ((fun b : ContentBlockNode => b.key == k) ∘ g) = fun b => b.key == k := by
    funext b
    simp [Function.comp, hg b]
  rw [this]

/-- The end key is among the keys a range covers. -/
theorem endKey_mem_rangeKeys (c : ContentState) (startKey endKey : String) :
    endKey ∈ c.rangeKeys startKey endKey := by
  simp [ContentState.rangeKeys]

/-- The reference depth adjuster keeps every depth within the maximum. -/
theorem adjustBlockDepth_clamps (content : ContentState) (selection : SelectionState)
    (adjustment : Int) (maxDepth : Nat)
    (hin : ∀ b ∈ content.blockMap, b.depth ≤ maxDepth) :
    ∀ b ∈ (adjustBlockDepthForContentState content selection adjustment maxDepth).blockMap,
      b.depth ≤ maxDepth := by
  intro b hb
  simp only [adjustBlockDepthForContentState, List.mem_map] at hb
  obtain ⟨b0, hb0, rfl⟩ := hb
  split
  · simp only []
    omega
  · exact hin b0 hb0

/-- After the reference depth adjuster, the block found under the end key of
the selection has the adjusted depth. -/
theorem adjustBlockDepth_endBlock (content : ContentState) (selection : SelectionState)
    (adjustment : Int) (maxDepth : Nat) (block : ContentBlockNode)
    (h : content.getBlockForKey selection.getEndKey = some block) :
    (adjustBlockDepthForContentState content selection adjustment maxDepth).getBlockForKey
        selection.getEndKey
      = some { block with
          depth := (max 0 (min ((block.depth : Int) + adjustment) (maxDepth : Int))).toNat } := by
  have hk : block.key = selection.getEndKey := key_of_getBlockForKey h
  unfold ContentState.getBlockForKey at h ⊢
  simp only [adjustBlockDepthForContentState]
  rw [find_map_key _ _ (by intro b; split <;> rfl), h]
  simp [hk, endKey_mem_rangeKeys]

/-- The character of index `i` after `modifyChars`. -/
theorem modifyChars_get (f : CharacterMetadata → CharacterMetadata) (lo hi : Nat) :
    ∀ (l : List CharacterMetadata) (i0 i : Nat),
      (DraftModifier.modifyChars f lo hi i0 l).get? i
        = (l.get? i).map (fun ch => if lo ≤ i0 + i ∧ i0 + i < hi then f ch else ch)
  | [], _, _ => by simp [DraftModifier.modifyChars]
  | ch :: rest, i0, 0 => by simp [DraftModifier.modifyChars]
  | ch :: rest, i0, i + 1 => by
    have := modifyChars_get f lo hi rest (i0 + 1) i
    simp only [DraftModifier.modifyChars, List.get?_cons_succ]
    rw [this]
    have e : i0 + 1 + i = i0 + (i + 1) := by omega
    rw [e]

/-- The annotation of a character after `modifyInlineStyle`: changed by `f`
inside the range of the selection, unchanged outside. -/
theorem modifyInlineStyle_charAt (content : ContentState) (selection : SelectionState)
    (f : CharacterMetadata → CharacterMetadata) (key : String) (b : ContentBlockNode) (i : Nat)
    (ch : CharacterMetadata)
    (hb : content.getBlockForKey key = some b) (hch : b.characterList.get? i = some ch) :
    (DraftModifier.modifyInlineStyle content selection f).charAt key i
      = some (if selection.coversChar content b i then f ch else ch) := by
  unfold ContentState.charAt
  unfold ContentState.getBlockForKey at hb ⊢
  simp only [DraftModifier.modifyInlineStyle]
  rw [find_map_key _ _ (by intro b; split <;> rfl), hb]
  simp only [Option.map_some', Option.some_bind]
  by_cases hc : b.key ∈ content.rangeKeys selection.getStartKey selection.getEndKey
  · rw [if_pos hc]
    simp only []
    rw [modifyChars_get, hch]
    simp only [Option.map_some', Nat.zero_add]
    congr 1
    by_cases h2 : (if b.key = selection.getStartKey then selection.getStartOffset else 0) ≤ i ∧
        i < (if b.key = selection.getEndKey then selection.getEndOffset else b.getLength)
    · rw [if_pos h2, if_pos ⟨hc, h2⟩]
    · rw [if_neg h2, if_neg (fun h => h2 h.2)]
  · rw [if_neg hc, hch, if_neg (fun h => hc h.1)]

/-- The second branch of `toggleInlineStyle`, for a selection that is not
collapsed. -/
theorem toggleInlineStyle_range (d : Collaborators) (editorState : EditorState)
    (inlineStyle : String) (hrange : editorState.selection.isCollapsed = false) :
    toggleInlineStyle d editorState inlineStyle
      = d.push editorState
          (if inlineStyle ∈ d.getCurrentInlineStyle editorState then
            d.removeInlineStyle editorState.currentContent editorState.selection inlineStyle
           else d.applyInlineStyle editorState.currentContent editorState.selection inlineStyle)
          "change-inline-style" := by
  unfold toggleInlineStyle
  simp only []
  rw [if_neg (by simp [hrange])]

/-- A map of the blocks that keeps the keys keeps the keys a range covers. -/
theorem rangeKeys_map (c : ContentState) (g : ContentBlockNode → ContentBlockNode)
    (hg : ∀ b, (g b).key = b.key) (c' : ContentState) (hc : c'.blockMap = c.blockMap.map g)
    (startKey endKey : String) :
    c'.rangeKeys startKey endKey = c.rangeKeys startKey endKey := by
  unfold ContentState.rangeKeys
  rw [hc, List.dropWhile_map, List.takeWhile_map, List.map_map]
  have h1 : ((fun b : ContentBlockNode => b.key != startKey) ∘ g)
      = fun b => b.key != startKey := by
    funext b; simp [Function.comp, hg b]
  have h2 : ((fun b : ContentBlockNode => b.key != endKey) ∘ g)
      = fun b => b.key != endKey := by
    funext b; simp [Function.comp, hg b]
  have h3 : ((fun b : ContentBlockNode => b.key) ∘ g) = fun b => b.key := by
    funext b; simp [Function.comp, hg b]
  rw [h1, h2, h3]

/-- The reference `modifyInlineStyle` keeps the keys a range covers. -/
theorem modifyInlineStyle_rangeKeys (content : ContentState) (selection : SelectionState)
    (f : CharacterMetadata → CharacterMetadata) (startKey endKey : String) :
    (DraftModifier.modifyInlineStyle content selection f).rangeKeys startKey endKey
      = content.rangeKeys startKey endKey :=
  rangeKeys_map content _ (by intro b; split <;> rfl) _ rfl startKey endKey

/-- The reference `modifyInlineStyle` keeps the key and the text of a block. -/
theorem modifyInlineStyle_block (content : ContentState) (selection : SelectionState)
    (f : CharacterMetadata → CharacterMetadata) (key : String) (b : ContentBlockNode)
    (hb : content.getBlockForKey key = some b) :
    ∃ b1, (DraftModifier.modifyInlineStyle content selection f).getBlockForKey key = some b1 ∧
      b1.key = b.key ∧ b1.text = b.text := by
  unfold ContentState.getBlockForKey at hb ⊢
  simp only [DraftModifier.modifyInlineStyle]
  rw [find_map_key _ _ (by intro b; split <;> rfl), hb]
  refine ⟨_, rfl, ?_, ?_⟩ <;> (simp only []; split <;> rfl)

/-- The annotation of a character after two runs of `modifyInlineStyle` over
the same selection. -/
theorem modifyInlineStyle_twice_charAt (content : ContentState) (selection : SelectionState)
    (f1 f2 : CharacterMetadata → CharacterMetadata) (key : String) (b : ContentBlockNode)
    (i : Nat) (ch : CharacterMetadata)
    (hb : content.getBlockForKey key = some b) (hch : b.characterList.get? i = some ch) :
    (DraftModifier.modifyInlineStyle (DraftModifier.modifyInlineStyle content selection f1)
        selection f2).charAt key i
      = some (if selection.coversChar content b i then f2 (f1 ch) else ch) := by
  obtain ⟨b1, hb1, hk, ht⟩ := modifyInlineStyle_block content selection f1 key b hb
  have h1 := modifyInlineStyle_charAt content selection f1 key b i ch hb hch
  unfold ContentState.charAt at h1
  rw [hb1] at h1
  simp only [Option.some_bind] at h1
  rw [modifyInlineStyle_charAt _ selection f2 key b1 i _ hb1 h1]
  have hcov : selection.coversChar (DraftModifier.modifyInlineStyle content selection f1) b1 i
      ↔ selection.coversChar content b i := by
    unfold SelectionState.coversChar
    rw [modifyInlineStyle_rangeKeys, hk]
    unfold ContentBlockNode.getLength
    rw [ht]
  by_cases hc : selection.coversChar content b i
  · rw [if_pos (hcov.2 hc), if_pos hc, if_pos hc]
  · rw [if_neg (fun h => hc (hcov.1 h)), if_neg hc, if_neg hc]

/-- Without override, the current inline style is the style of the character
where the selection starts. -/
theorem getCurrentInlineStyle_of_charAt (editorState : EditorState) (ch : CharacterMetadata)
    (hover : editorState.inlineStyleOverride = none)
    (hch : editorState.currentContent.charAt editorState.selection.getStartKey
      editorState.selection.getStartOffset = some ch) :
    editorState.getCurrentInlineStyle = ch.style := by
  unfold EditorState.getCurrentInlineStyle
  unfold ContentState.charAt at hch
  rw [hover]
  cases hb : editorState.currentContent.getBlockForKey editorState.selection.getStartKey with
  | none => rw [hb] at hch; simp at hch
  | some b =>
    rw [hb] at hch
    simp only [Option.some_bind] at hch
    simp only [hch]

/-- The toggle of a style keeps the entity of a character. -/
theorem styleChange_entity (s : String) (cur : List String) (ch : CharacterMetadata) :
    (styleChange s cur ch).entity = ch.entity := by
  unfold styleChange
  split
  · rfl
  · split <;> rfl

/-- The toggle of a style keeps every other style of a character. -/
theorem styleChange_other (s : String) (cur : List String) (ch : CharacterMetadata) (t : String)
    (ht : t ≠ s) : t ∈ (styleChange s cur ch).style ↔ t ∈ ch.style := by
  unfold styleChange
  split
  · simp [List.mem_filter, ht]
  · split
    · rfl
    · simp [ht]

/-- After the toggle a character has the style exactly when the current style
lacks it. -/
theorem styleChange_self (s : String) (cur : List String) (ch : CharacterMetadata) :
    s ∈ (styleChange s cur ch).style ↔ s ∉ cur := by
  unfold styleChange
  split
  · simp [List.mem_filter, *]
  · split
    · simp [*]
    · simp [*]

/-- With the reference collaborators, the toggle over a range commits the
document whose characters in the range are changed by `styleChange`. -/
theorem toggleInlineStyle_spec_range (editorState : EditorState) (inlineStyle : String)
    (hrange : editorState.selection.isCollapsed = false) :
    toggleInlineStyle specCollaborators editorState inlineStyle
      = EditorState.push editorState
          (DraftModifier.modifyInlineStyle editorState.currentContent editorState.selection
            (styleChange inlineStyle editorState.getCurrentInlineStyle))
          "change-inline-style" := by
  rw [toggleInlineStyle_range specCollaborators editorState inlineStyle hrange]
  show EditorState.push editorState
      (if inlineStyle ∈ editorState.getCurrentInlineStyle then
        DraftModifier.removeInlineStyle editorState.currentContent editorState.selection
          inlineStyle
       else DraftModifier.applyInlineStyle editorState.currentContent editorState.selection
          inlineStyle) "change-inline-style" = _
  congr 1
  by_cases hs : inlineStyle ∈ editorState.getCurrentInlineStyle
  · rw [if_pos hs]
    unfold DraftModifier.removeInlineStyle
    congr 1
    funext ch
    simp [styleChange, hs]
  · rw [if_neg hs]
    unfold DraftModifier.applyInlineStyle
    congr 1
    funext ch
    simp [styleChange, hs]

/-- Nothing of what `dropWhile` leaves passes `takeWhile` for the same test. -/
theorem dropWhile_takeWhile_nil {α : Type} (p : α → Bool) :
    ∀ l : List α, (l.dropWhile p).takeWhile p = []
  | [] => rfl
  | a :: l => by
    rw [List.dropWhile_cons]
    split
    · exact dropWhile_takeWhile_nil p l
    · rw [List.takeWhile_cons]
      simp [*]

/-- A range inside one block covers that block alone. -/
theorem rangeKeys_self (c : ContentState) (k : String) : c.rangeKeys k k = [k] := by
  unfold ContentState.rangeKeys
  rw [dropWhile_takeWhile_nil]
  rfl

/-- The members of the slice from `s` to `e` are the elements of index at
least `s` and below `e`. -/
theorem mem_slice {α : Type} (l : List α) (s e : Nat) (a : α) :
    a ∈ (l.drop s).take (e - s) ↔ ∃ i, s ≤ i ∧ i < e ∧ l.get? i = some a := by
  rw [List.mem_iff_get?]
  constructor
  · rintro ⟨n, hn⟩
    rw [List.get?_eq_getElem?, List.getElem?_take] at hn
    split at hn
    · rw [List.getElem?_drop] at hn
      exact ⟨s + n, by omega, by omega, by rw [List.get?_eq_getElem?]; exact hn⟩
    · cases hn
  · rintro ⟨i, h1, h2, h3⟩
    refine ⟨i - s, ?_⟩
    rw [List.get?_eq_getElem?, List.getElem?_take, if_pos (by omega), List.getElem?_drop]
    rw [List.get?_eq_getElem?] at h3
    have : s + (i - s) = i := by omega
    rw [this]
    exact h3

/-- When every entity key of the characters is in the entity map, `someLink`
returns a boolean, which is true exactly when one of the characters refers to
an entity of type `LINK`. -/
theorem someLink_spec (entityMap : List (String × DraftEntityInstance)) :
    ∀ l : List CharacterMetadata,
      (∀ ch ∈ l, ∀ e, ch.entity = some e → ∃ inst, entityMap.lookup e = some inst) →
      (someLink entityMap l = .ok true ∨ someLink entityMap l = .ok false) ∧
      (someLink entityMap l = .ok true ↔
        ∃ ch ∈ l, ∃ e inst, ch.entity = some e ∧ entityMap.lookup e = some inst ∧
          inst.type = "LINK")
  | [], _ => by simp [someLink]
  | v :: rest, h => by
    have ih := someLink_spec entityMap rest (fun ch hch => h ch (List.mem_cons_of_mem _ hch))
    cases hv : v.entity with
    | none =>
      have e1 : someLink entityMap (v :: rest) = someLink entityMap rest := by
        simp [someLink, hv]
      rw [e1]
      refine ⟨ih.1, ih.2.trans ⟨?_, ?_⟩⟩
      · rintro ⟨ch, hch, x⟩
        exact ⟨ch, List.mem_cons_of_mem _ hch, x⟩
      · rintro ⟨ch, hch, e, inst, he, x⟩
        rcases List.mem_cons.1 hch with rfl | hch
        · rw [hv] at he; cases he
        · exact ⟨ch, hch, e, inst, he, x⟩
    | some e0 =>
      obtain ⟨inst0, hl⟩ := h v (List.mem_cons_self _ _) e0 hv
      by_cases ht : inst0.type = "LINK"
      · have e1 : someLink entityMap (v :: rest) = .ok true := by
          simp [someLink, hv, hl, ht]
        rw [e1]
        exact ⟨Or.inl rfl, ⟨fun _ => ⟨v, List.mem_cons_self _ _, e0, inst0, hv, hl, ht⟩,
          fun _ => rfl⟩⟩
      · have e1 : someLink entityMap (v :: rest) = someLink entityMap rest := by
          simp [someLink, hv, hl, ht]
        rw [e1]
        refine ⟨ih.1, ih.2.trans ⟨?_, ?_⟩⟩
        · rintro ⟨ch, hch, x⟩
          exact ⟨ch, List.mem_cons_of_mem _ hch, x⟩
        · rintro ⟨ch, hch, e, inst, he, hle, hty⟩
          rcases List.mem_cons.1 hch with rfl | hch
          · rw [hv] at he
            cases he
            rw [hl] at hle
            cases hle
            exact absurd hty ht
          · exact ⟨ch, hch, e, inst, he, hle, hty⟩

/-- When `onDelete` returns an editor state, it is the push of the removal. -/
theorem onDelete_some (d : Collaborators) (editorState es : EditorState)
    (h : onDelete d editorState = .ok (some es)) :
    ∃ block blockAfter,
      editorState.selection.isCollapsed = true ∧
      editorState.currentContent.getBlockForKey editorState.selection.getStartKey
        = some block ∧
      ¬ editorState.selection.getStartOffset < block.getLength ∧
      editorState.currentContent.getBlockAfter editorState.selection.getStartKey
        = some blockAfter ∧
      es = d.push editorState
        (d.removeRange editorState.currentContent
          (onDeleteRange editorState.selection blockAfter) "forward") "remove-range" := by
  unfold onDelete at h
  simp only [] at h
  split at h
  · cases h
  · rename_i hc
    split at h
    · cases h
    · rename_i block hblock
      split at h
      · cases h
      · rename_i hoff
        split at h
        · cases h
        · rename_i blockAfter hafter
          split at h
          · cases h
          · split at h
            · cases h
              exact ⟨block, blockAfter, by simpa using hc, hblock, hoff, hafter, rfl⟩
            · cases h

/-- When `tryToRemoveBlockStyle` returns a document, it is the result of
`setBlockType`. -/
theorem tryToRemoveBlockStyle_some (d : Collaborators) (editorState : EditorState)
    (c : ContentState) (h : tryToRemoveBlockStyle d editorState = .ok (some c)) :
    c = d.setBlockType editorState.currentContent editorState.selection "unstyled" := by
  unfold tryToRemoveBlockStyle at h
  simp only [] at h
  split at h
  · split at h
    · cases h
    · split at h
      · cases h
      · split at h
        · cases h
          rfl
        · cases h
  · cases h

/-- When `onBackspace` returns an editor state, it is the push of one of its
two attempts. -/
theorem onBackspace_some (d : Collaborators) (editorState es : EditorState)
    (h : onBackspace d editorState = .ok (some es)) :
    ∃ currentBlock,
      editorState.currentContent.getBlockForKey editorState.selection.getStartKey
        = some currentBlock ∧
      onBackspaceGuard editorState.currentContent editorState.selection currentBlock
        = .ok false ∧
      ((∃ blockBefore,
          editorState.currentContent.getBlockBefore editorState.selection.getStartKey
            = some blockBefore ∧
          es = d.push editorState
            (onBackspaceDocument d editorState.currentContent editorState.selection
              editorState.selection.getStartKey currentBlock blockBefore) "remove-range") ∨
        es = d.push editorState
          (d.setBlockType editorState.currentContent editorState.selection "unstyled")
          "change-block-type") := by
  unfold onBackspace at h
  simp only [] at h
  split at h
  · cases h
  · rename_i currentBlock hblock
    split at h
    · cases h
    · cases h
    · rename_i hguard
      refine ⟨currentBlock, hblock, hguard, ?_⟩
      split at h
      · rename_i committed hatt
        cases h
        left
        unfold onBackspaceAtomicAttempt at hatt
        simp only [] at hatt
        split at hatt
        · cases hatt
        · rename_i blockBefore hbefore
          split at hatt
          · split at hatt
            · cases hatt
              exact ⟨blockBefore, hbefore, rfl⟩
            · cases hatt
          · cases hatt
      · right
        unfold onBackspaceStyleAttempt at h
        split at h
        · cases h
        · rename_i c hc
          cases h
          rw [tryToRemoveBlockStyle_some d editorState c hc]
        · cases h

/-- The selection-after of a removal is the caret at the start of the range. -/
theorem removeRange_selectionAfter (c : ContentState) (r : SelectionState) (dir : String)
    (sb eb : ContentBlockNode) (hnc : r.isCollapsed = false)
    (hs : c.getBlockForKey r.getStartKey = some sb)
    (he : c.getBlockForKey r.getEndKey = some eb) :
    (DraftModifier.removeRange c r dir).selectionAfter
      = { r with
          anchorKey := r.getStartKey
          anchorOffset := r.getStartOffset
          focusKey := r.getStartKey
          focusOffset := r.getStartOffset
          isBackward := false } := by
  simp [DraftModifier.removeRange, hnc, hs, he]

/-- The selection-after of a removal is valid in the resulting document when
the start offset lies within the start block. -/
theorem removeRange_valid (c : ContentState) (r : SelectionState) (dir : String)
    (sb eb : ContentBlockNode) (hnc : r.isCollapsed = false)
    (hs : c.getBlockForKey r.getStartKey = some sb)
    (he : c.getBlockForKey r.getEndKey = some eb)
    (hoff : r.getStartOffset ≤ sb.getLength) :
    (DraftModifier.removeRange c r dir).selectionAfter.validIn
      (DraftModifier.removeRange c r dir) := by
  have hblock := removeRange_start_block c r dir sb eb hnc hs he
  have hlen : r.getStartOffset ≤ (sb.text.take r.getStartOffset
      ++ eb.text.drop r.getEndOffset).length := by
    unfold ContentBlockNode.getLength at hoff
    rw [List.length_append, List.length_take]
    omega
  rw [removeRange_selectionAfter c r dir sb eb hnc hs he]
  exact ⟨⟨_, hblock, hlen⟩, ⟨_, hblock, hlen⟩⟩

/-- A valid selection stays valid when the blocks keep their keys and texts. -/
theorem validIn_map (s : SelectionState) (c c' : ContentState)
    (g : ContentBlockNode → ContentBlockNode)
    (hkey : ∀ b, (g b).key = b.key) (htext : ∀ b, (g b).text = b.text)
    (hc : c'.blockMap = c.blockMap.map g) (h : s.validIn c) : s.validIn c' := by
  have hfind : ∀ k b, c.getBlockForKey k = some b → c'.getBlockForKey k = some (g b) := by
    intro k b hb
    unfold ContentState.getBlockForKey at hb ⊢
    rw [hc, find_map_key _ _ hkey, hb]
    rfl
  obtain ⟨⟨b1, h1, h1'⟩, ⟨b2, h2, h2'⟩⟩ := h
  refine ⟨⟨g b1, hfind _ _ h1, ?_⟩, ⟨g b2, hfind _ _ h2, ?_⟩⟩
  · unfold ContentBlockNode.getLength at h1' ⊢
    rw [htext]; exact h1'
  · unfold ContentBlockNode.getLength at h2' ⊢
    rw [htext]; exact h2'

/-! ## C1: the nesting invariant under the code command -/

/-- C1. The nesting invariant is not preserved by the command `code`: in the
document `parentWithChild`, where it holds, the caret is in a block that has a
child; `handleKeyCommand` routes `code` through `toggleCode` to the flat
block-type toggle, and the committed document has the block `p` of type
`code-block` with its child list `["c"]`. The guarded `toggleBlockType` refuses
the same change on the same state. -/
theorem C1_code_command_breaks_nesting_invariant :
    parentWithChild.currentContent.nestingInvariant ∧
    (∃ es b, handleKeyCommand specCollaborators parentWithChild "code" = .ok (some es) ∧
      es.currentContent.getBlockForKey "p" = some b ∧
      b.type = "code-block" ∧ b.children = ["c"] ∧
      ¬ es.currentContent.nestingInvariant) ∧
    toggleBlockType specCollaborators parentWithChild "code-block" = .ok parentWithChild :=
  ⟨by decide, ⟨_, _, rfl, rfl, rfl, rfl, by decide⟩, rfl⟩

/-! ## C2 and C3: the decision table of toggleBlockType -/

/-- C2. When the target type is `code-block` or `atomic` and the selection
spans two blocks or the block at the start of the selection has a child,
`toggleBlockType` returns the input editor state. This holds for every
implementation of the collaborators, so the flat block-type toggle has no part
in the result. -/
theorem C2_toggleBlockType_refuses (d : Collaborators) (editorState : EditorState)
    (blockType : String) (currentBlock : ContentBlockNode)
    (hblock : editorState.currentContent.getBlockForKey editorState.selection.getStartKey
      = some currentBlock)
    (htype : blockType = "code-block" ∨ blockType = "atomic")
    (hsel : editorState.selection.anchorKey ≠ editorState.selection.focusKey ∨
      currentBlock.children ≠ []) :
    toggleBlockType d editorState blockType = .ok editorState := by
  have hmem : blockType ∈ NESTING_DISABLED_TYPES := by
    rcases htype with h | h <;> simp [NESTING_DISABLED_TYPES, h]
  simp only [toggleBlockType, hblock]
  rw [if_pos ⟨hsel, hmem⟩]

/-- C2, at the document `parentWithChild` and the target type `atomic`. -/
theorem C2_toggleBlockType_refuses_witness :
    (∃ b, parentWithChild.currentContent.getBlockForKey parentWithChild.selection.getStartKey
        = some b ∧ b.children ≠ []) ∧
    toggleBlockType specCollaborators parentWithChild "atomic" = .ok parentWithChild :=
  ⟨⟨_, rfl, by decide⟩,
   C2_toggleBlockType_refuses specCollaborators parentWithChild "atomic" _ rfl (Or.inr rfl)
     (Or.inr (by decide))⟩

/-- C3. When the first rule of `toggleBlockType` does not refuse, the result
is that of the flat block-type toggle if the current type is nesting-disallowed,
or the selection is collapsed, or the target type is nesting-disallowed, or the
selection spans two blocks, or the current type is the target, or the current
block has a child; in the remaining case (one block, ranged selection, no child,
both types nesting-allowed, type changing) it is the input editor state. -/
theorem C3_toggleBlockType_delegates (d : Collaborators) (editorState : EditorState)
    (blockType : String) (currentBlock : ContentBlockNode)
    (hblock : editorState.currentContent.getBlockForKey editorState.selection.getStartKey
      = some currentBlock)
    (hpass : ¬ ((editorState.selection.anchorKey ≠ editorState.selection.focusKey ∨
      currentBlock.children ≠ []) ∧ blockType ∈ NESTING_DISABLED_TYPES)) :
    ((currentBlock.type ∈ NESTING_DISABLED_TYPES ∨ editorState.selection.isCollapsed = true ∨
        blockType ∈ NESTING_DISABLED_TYPES ∨
        editorState.selection.anchorKey ≠ editorState.selection.focusKey ∨
        currentBlock.type = blockType ∨ currentBlock.children ≠ []) →
      toggleBlockType d editorState blockType = .ok (d.flatToggleBlockType editorState blockType)) ∧
    ((editorState.selection.anchorKey = editorState.selection.focusKey ∧
        editorState.selection.isCollapsed = false ∧ currentBlock.children = [] ∧
        currentBlock.type ∉ NESTING_DISABLED_TYPES ∧ blockType ∉ NESTING_DISABLED_TYPES ∧
        currentBlock.type ≠ blockType) →
      toggleBlockType d editorState blockType = .ok editorState) := by
  constructor
  · intro h
    simp only [toggleBlockType, hblock]
    rw [if_neg hpass, if_pos h]
  · rintro ⟨h1, h2, h3, h4, h5, h6⟩
    simp only [toggleBlockType, hblock]
    rw [if_neg hpass, if_neg]
    simp [h1, h2, h3, h4, h5, h6]

/-- C3, at the block Hello: with the caret the flat toggle decides, with the
range `ell` and the target type `header-one` nothing happens. -/
theorem C3_toggleBlockType_delegates_witness :
    toggleBlockType specCollaborators (helloDoc (caret "a" 1)) "header-one"
      = .ok (RichTextEditorUtil.toggleBlockType (helloDoc (caret "a" 1)) "header-one") ∧
    toggleBlockType specCollaborators (helloDoc (rangeIn "a" 1 4)) "header-one"
      = .ok (helloDoc (rangeIn "a" 1 4)) :=
  ⟨(C3_toggleBlockType_delegates specCollaborators (helloDoc (caret "a" 1)) "header-one" _ rfl
      (by decide)).1 (Or.inr (Or.inl rfl)),
   (C3_toggleBlockType_delegates specCollaborators (helloDoc (rangeIn "a" 1 4)) "header-one" _ rfl
      (by decide)).2 (by decide)⟩

/-! ## C4: forward deletion that is not handled -/

/-- C4. `onDelete` returns null when the selection is not collapsed, or the
caret is before the end of the current block, or there is no next block in
document order, or the next block is not of type `atomic`. The three last cases
speak of the current block, the block of the start key. -/
theorem C4_onDelete_not_handled (d : Collaborators) (editorState : EditorState)
    (h : editorState.selection.isCollapsed = false ∨
      ∃ block, editorState.currentContent.getBlockForKey editorState.selection.getStartKey
          = some block ∧
        (editorState.selection.getStartOffset < block.getLength ∨
         editorState.currentContent.getBlockAfter editorState.selection.getStartKey = none ∨
         ∃ blockAfter,
           editorState.currentContent.getBlockAfter editorState.selection.getStartKey
             = some blockAfter ∧ blockAfter.type ≠ "atomic")) :
    onDelete d editorState = .ok none := by
  unfold onDelete
  rcases h with h | ⟨block, hblock, h⟩
  · simp [h]
  · simp only [hblock]
    split
    · rfl
    · rcases h with h | h | ⟨blockAfter, hafter, h⟩
      · simp [h]
      · simp [h]
      · simp only [hafter]
        split
        · rfl
        · simp [h]

/-- C4, scenario 1: the single unstyled block Hello with the caret at offset 5,
its end; there is no next block. -/
theorem C4_onDelete_not_handled_witness :
    (helloDoc (caret "a" 5)).currentContent.getBlockAfter "a" = none ∧
    onDelete specCollaborators (helloDoc (caret "a" 5)) = .ok none :=
  ⟨rfl, C4_onDelete_not_handled specCollaborators (helloDoc (caret "a" 5))
    (Or.inr ⟨_, rfl, Or.inr (Or.inl rfl)⟩)⟩

/-! ## C5: forward deletion of an atomic block -/

/-- C5. With the caret at the end of the current block and an atomic block
next in document order, `onDelete` commits with change type `remove-range` the
document that `removeRange` returns, in the direction `forward`, for the range
that starts at the caret and ends at the key and length of the next block; this
for every collaborator that returns a new document there. For the reference
collaborators the commit takes place, the atomic block is no longer in the
document and the text of the current block is unchanged. The caret is not
flagged backward and the keys of the document are distinct. -/
theorem C5_onDelete_removes_atomic (editorState : EditorState)
    (block blockAfter : ContentBlockNode)
    (hnodup : editorState.currentContent.keysNodup)
    (hcollapsed : editorState.selection.isCollapsed = true)
    (hforward : editorState.selection.isBackward = false)
    (hblock : editorState.currentContent.getBlockForKey editorState.selection.getStartKey
      = some block)
    (hend : editorState.selection.getStartOffset = block.getLength)
    (hafter : editorState.currentContent.getBlockAfter editorState.selection.getStartKey
      = some blockAfter)
    (hatomic : blockAfter.type = "atomic") :
    (∀ d : Collaborators,
      d.removeRange editorState.currentContent
        (onDeleteRange editorState.selection blockAfter) "forward" ≠ editorState.currentContent →
      onDelete d editorState = .ok (some (d.push editorState
        (d.removeRange editorState.currentContent
          (onDeleteRange editorState.selection blockAfter) "forward") "remove-range"))) ∧
    onDelete specCollaborators editorState = .ok (some (EditorState.push editorState
      (DraftModifier.removeRange editorState.currentContent
        (onDeleteRange editorState.selection blockAfter) "forward") "remove-range")) ∧
    (onDeleteRange editorState.selection blockAfter).getStartKey
      = editorState.selection.getStartKey ∧
    (onDeleteRange editorState.selection blockAfter).getStartOffset
      = editorState.selection.getStartOffset ∧
    (onDeleteRange editorState.selection blockAfter).getEndKey = blockAfter.key ∧
    (onDeleteRange editorState.selection blockAfter).getEndOffset = blockAfter.getLength ∧
    blockAfter.key ∈ editorState.currentContent.keys ∧
    blockAfter.key ∉ (DraftModifier.removeRange editorState.currentContent
      (onDeleteRange editorState.selection blockAfter) "forward").keys ∧
    ((DraftModifier.removeRange editorState.currentContent
      (onDeleteRange editorState.selection blockAfter) "forward").getBlockForKey
        editorState.selection.getStartKey).map (fun b => b.text) = some block.text := by
  obtain ⟨hmem, hne⟩ := after_mem_ne _ _ _ hafter
  have hne := hne hnodup
  have hfind : editorState.currentContent.getBlockForKey blockAfter.key = some blockAfter :=
    find_of_mem_nodup _ _ hnodup hmem
  have hsk : (onDeleteRange editorState.selection blockAfter).getStartKey
      = editorState.selection.getStartKey := by
    simp [onDeleteRange, SelectionState.getStartKey, hforward]
  have hso : (onDeleteRange editorState.selection blockAfter).getStartOffset
      = editorState.selection.getStartOffset := by
    simp [onDeleteRange, SelectionState.getStartOffset, hforward]
  have hek : (onDeleteRange editorState.selection blockAfter).getEndKey = blockAfter.key := by
    simp [onDeleteRange, SelectionState.getEndKey, hforward]
  have heo : (onDeleteRange editorState.selection blockAfter).getEndOffset
      = blockAfter.getLength := by
    simp [onDeleteRange, SelectionState.getEndOffset, hforward]
  have hnc : (onDeleteRange editorState.selection blockAfter).isCollapsed = false := by
    have : editorState.selection.anchorKey ≠ blockAfter.key := by
      intro e
      apply hne
      simp [SelectionState.getStartKey, hforward, e]
    simp [onDeleteRange, SelectionState.isCollapsed, this]
  have hs' : editorState.currentContent.getBlockForKey
      (onDeleteRange editorState.selection blockAfter).getStartKey = some block := by
    rw [hsk]; exact hblock
  have he' : editorState.currentContent.getBlockForKey
      (onDeleteRange editorState.selection blockAfter).getEndKey = some blockAfter := by
    rw [hek]; exact hfind
  have hkeys : blockAfter.key ∈ editorState.currentContent.keys :=
    List.mem_map.2 ⟨blockAfter, hmem, rfl⟩
  have hnot : blockAfter.key ∉ (DraftModifier.removeRange editorState.currentContent
      (onDeleteRange editorState.selection blockAfter) "forward").keys := by
    have := removeRange_endKey_not_mem editorState.currentContent
      (onDeleteRange editorState.selection blockAfter) "forward" block blockAfter hnc hs' he'
      (by rw [hsk, hek]; exact fun e => hne e.symm)
    rwa [hek] at this
  have hchange : DraftModifier.removeRange editorState.currentContent
      (onDeleteRange editorState.selection blockAfter) "forward" ≠ editorState.currentContent := by
    intro e
    rw [e] at hnot
    exact hnot hkeys
  refine ⟨?_, ?_, hsk, hso, hek, heo, hkeys, hnot, ?_⟩
  · intro d hd
    exact onDelete_commits d editorState block blockAfter hcollapsed hblock (by omega) hafter
      hatomic hd
  · exact onDelete_commits specCollaborators editorState block blockAfter hcollapsed hblock
      (by omega) hafter hatomic hchange
  · have := removeRange_start_block editorState.currentContent
      (onDeleteRange editorState.selection blockAfter) "forward" block blockAfter hnc hs' he'
    rw [hsk] at this
    rw [this]
    simp [hso, heo, hend, ContentBlockNode.getLength]

/-- C5, scenario 2: the committed document is the block Hi alone, with the
change type `remove-range`. -/
theorem C5_onDelete_removes_atomic_witness :
    committedChangeType (onDelete specCollaborators hiAtomic) = some "remove-range" ∧
    (committedDocument (onDelete specCollaborators hiAtomic)).map (fun c => c.blockMap)
      = some [plainBlock "a" "unstyled" "Hi"] := by
  have h := (C5_onDelete_removes_atomic hiAtomic (plainBlock "a" "unstyled" "Hi")
    (plainBlock "b" "atomic" " ") (by decide) rfl rfl rfl rfl rfl rfl).2.1
  refine ⟨?_, ?_⟩
  · rw [h]; rfl
  · rw [h]; rfl

/-! ## C6: the guard of onBackspace -/

/-- C6. `onBackspace` returns null when the selection is not collapsed, or the
anchor or focus offset is not zero, or the current block is `unstyled` and has
a previous sibling whose type is not `atomic`. In every other state, the
previous-sibling key of the current block naming a block when there is one, it
goes on to the two ordered attempts: the removal of a preceding atomic block,
then the stripping of the block style. -/
theorem C6_onBackspace_guard (d : Collaborators) (editorState : EditorState)
    (currentBlock : ContentBlockNode)
    (hblock : editorState.currentContent.getBlockForKey editorState.selection.getStartKey
      = some currentBlock) :
    ((editorState.selection.isCollapsed = false ∨ editorState.selection.anchorOffset ≠ 0 ∨
        editorState.selection.focusOffset ≠ 0 ∨
        (currentBlock.type = "unstyled" ∧
          ∃ key previousBlock, currentBlock.prevSibling = some key ∧
            editorState.currentContent.getBlockForKey key = some previousBlock ∧
            previousBlock.type ≠ "atomic")) →
      onBackspace d editorState = .ok none) ∧
    (¬ (editorState.selection.isCollapsed = false ∨ editorState.selection.anchorOffset ≠ 0 ∨
        editorState.selection.focusOffset ≠ 0 ∨
        (currentBlock.type = "unstyled" ∧
          ∃ key previousBlock, currentBlock.prevSibling = some key ∧
            editorState.currentContent.getBlockForKey key = some previousBlock ∧
            previousBlock.type ≠ "atomic")) →
      (∀ key, currentBlock.prevSibling = some key →
        ∃ previousBlock, editorState.currentContent.getBlockForKey key = some previousBlock) →
      onBackspace d editorState =
        match onBackspaceAtomicAttempt d editorState currentBlock with
        | some committed => .ok (some committed)
        | none => onBackspaceStyleAttempt d editorState) := by
  constructor
  · intro h
    have hg : onBackspaceGuard editorState.currentContent editorState.selection currentBlock
        = .ok true := by
      unfold onBackspaceGuard
      by_cases h3 : editorState.selection.isCollapsed = false ∨
          editorState.selection.anchorOffset ≠ 0 ∨ editorState.selection.focusOffset ≠ 0
      · rw [if_pos h3]
      · rw [if_neg h3]
        rcases h with h | h | h | ⟨ht, key, previousBlock, hk, hp, hna⟩
        · exact absurd (Or.inl h) h3
        · exact absurd (Or.inr (Or.inl h)) h3
        · exact absurd (Or.inr (Or.inr h)) h3
        · rw [if_pos ht]
          simp [hk, hp, hna]
    simp only [onBackspace, hblock, hg]
  · intro h hlink
    have hg : onBackspaceGuard editorState.currentContent editorState.selection currentBlock
        = .ok false := by
      unfold onBackspaceGuard
      have h3 : ¬ (editorState.selection.isCollapsed = false ∨
          editorState.selection.anchorOffset ≠ 0 ∨ editorState.selection.focusOffset ≠ 0) := by
        intro h3
        apply h
        rcases h3 with h3 | h3 | h3
        · exact Or.inl h3
        · exact Or.inr (Or.inl h3)
        · exact Or.inr (Or.inr (Or.inl h3))
      rw [if_neg h3]
      by_cases ht : currentBlock.type = "unstyled"
      · rw [if_pos ht]
        cases hk : currentBlock.prevSibling with
        | none => rfl
        | some key =>
          obtain ⟨previousBlock, hp⟩ := hlink key hk
          simp only [hp]
          by_cases hna : previousBlock.type = "atomic"
          · simp [hna]
          · exact absurd (Or.inr (Or.inr (Or.inr ⟨ht, key, previousBlock, hk, hp, hna⟩))) h
      · rw [if_neg ht]
    simp only [onBackspace, hblock, hg]

/-- C6, at the block Hello with the caret at offset 3 (null) and at the code
block of scenario 3 (the two attempts). -/
theorem C6_onBackspace_guard_witness :
    onBackspace specCollaborators (helloDoc (caret "a" 3)) = .ok none ∧
    onBackspace specCollaborators codeDoc =
      (match onBackspaceAtomicAttempt specCollaborators codeDoc (plainBlock "a" "code-block" "x=1")
        with
        | some committed => .ok (some committed)
        | none => onBackspaceStyleAttempt specCollaborators codeDoc) :=
  ⟨(C6_onBackspace_guard specCollaborators (helloDoc (caret "a" 3)) _ rfl).1
      (Or.inr (Or.inl (by decide))),
   (C6_onBackspace_guard specCollaborators codeDoc (plainBlock "a" "code-block" "x=1") rfl).2
      (by rintro (h | h | h | ⟨h, _⟩) <;> exact absurd h (by decide))
      (fun _ h => Option.noConfusion h)⟩

/-! ## C7: backspace after an atomic block -/

/-- What the first attempt of `onBackspace` does when the state passes the guard
and the block before in document order is atomic, the keys of the document
being distinct: the range of lines 107 to 113 goes to `removeRange`, the result
gets the selection as its selection-after and is committed with the change type
`remove-range` when it is not the current document; with the reference
collaborators the commit takes place and the atomic block is not in the
committed document. The range has its anchor at the end of the current block
and its focus at the end of the atomic block, so it runs against the document
order. -/
theorem onBackspace_atomic_commit (editorState : EditorState)
    (currentBlock blockBefore : ContentBlockNode)
    (hnodup : editorState.currentContent.keysNodup)
    (hblock : editorState.currentContent.getBlockForKey editorState.selection.getStartKey
      = some currentBlock)
    (hguard : onBackspaceGuard editorState.currentContent editorState.selection currentBlock
      = .ok false)
    (hbefore : editorState.currentContent.getBlockBefore editorState.selection.getStartKey
      = some blockBefore)
    (hatomic : blockBefore.type = "atomic") :
    onBackspaceRange editorState.selection editorState.selection.getStartKey currentBlock
        blockBefore
      = { anchorKey := editorState.selection.getStartKey
          anchorOffset := currentBlock.text.length
          focusKey := blockBefore.key
          focusOffset := blockBefore.text.length
          isBackward := false } ∧
    (∀ d : Collaborators,
      onBackspaceDocument d editorState.currentContent editorState.selection
          editorState.selection.getStartKey currentBlock blockBefore
        ≠ editorState.currentContent →
      onBackspace d editorState = .ok (some (d.push editorState
        (onBackspaceDocument d editorState.currentContent editorState.selection
          editorState.selection.getStartKey currentBlock blockBefore) "remove-range")) ∧
      (onBackspaceDocument d editorState.currentContent editorState.selection
          editorState.selection.getStartKey currentBlock blockBefore).selectionAfter
        = editorState.selection) ∧
    onBackspace specCollaborators editorState = .ok (some (EditorState.push editorState
      (onBackspaceDocument specCollaborators editorState.currentContent editorState.selection
        editorState.selection.getStartKey currentBlock blockBefore) "remove-range")) ∧
    blockBefore.key ∈ editorState.currentContent.keys ∧
    blockBefore.key ∉ (onBackspaceDocument specCollaborators editorState.currentContent
      editorState.selection editorState.selection.getStartKey currentBlock blockBefore).keys := by
  obtain ⟨hmem, hne⟩ := before_mem_ne _ _ _ hbefore
  have hne := hne hnodup
  have hfind : editorState.currentContent.getBlockForKey blockBefore.key = some blockBefore :=
    find_of_mem_nodup _ _ hnodup hmem
  have hkeys : blockBefore.key ∈ editorState.currentContent.keys :=
    List.mem_map.2 ⟨blockBefore, hmem, rfl⟩
  have hcommit : ∀ d : Collaborators,
      onBackspaceDocument d editorState.currentContent editorState.selection
          editorState.selection.getStartKey currentBlock blockBefore
        ≠ editorState.currentContent →
      onBackspace d editorState = .ok (some (d.push editorState
        (onBackspaceDocument d editorState.currentContent editorState.selection
          editorState.selection.getStartKey currentBlock blockBefore) "remove-range")) := by
    intro d hd
    simp only [onBackspace, hblock, hguard, onBackspaceAtomicAttempt, hbefore]
    simp [hatomic, hd]
  have hnc : (onBackspaceRange editorState.selection editorState.selection.getStartKey
      currentBlock blockBefore).isCollapsed = false := by
    simp [onBackspaceRange, SelectionState.isCollapsed, Ne.symm hne]
  have hnot : blockBefore.key ∉ (onBackspaceDocument specCollaborators
      editorState.currentContent editorState.selection editorState.selection.getStartKey
      currentBlock blockBefore).keys := by
    have := removeRange_endKey_not_mem editorState.currentContent
      (onBackspaceRange editorState.selection editorState.selection.getStartKey
        currentBlock blockBefore) "forward" currentBlock blockBefore hnc hblock hfind
      (fun e => hne e.symm)
    exact this
  have hchange : onBackspaceDocument specCollaborators editorState.currentContent
      editorState.selection editorState.selection.getStartKey currentBlock blockBefore
      ≠ editorState.currentContent := by
    intro e
    rw [e] at hnot
    exact hnot hkeys
  exact ⟨rfl, fun d hd => ⟨hcommit d hd, rfl⟩, hcommit specCollaborators hchange, hkeys, hnot⟩

/-- C7. The code does not do what the claim says. At `atomicHiTail`, a document
of the blocks `b` (atomic), `a` and `c` with the caret at the start of `a`, the
range that `onBackspace` gives to `removeRange` has its anchor at `a` offset 2
and its focus at `b` offset 1, not flagged backward: it does not run from
offset 0 of the atomic block to offset 0 of the current block, it starts at the
current block and ends at the earlier atomic block. The removal then walks from
`a` to the end of the document: the commit, of change type `remove-range` and
with the original selection as selection-after, leaves the block `a` alone, so
the block `c` is deleted together with the atomic block. -/
theorem C7_onBackspace_deletes_following_blocks :
    atomicHiTail.currentContent.keys = ["b", "a", "c"] ∧
    (committedDocument (onBackspace recordingCollaborators atomicHiTail)).map
        (fun c => c.selectionBefore)
      = some { anchorKey := "a", anchorOffset := 2, focusKey := "b", focusOffset := 1,
               isBackward := false } ∧
    (committedDocument (onBackspace recordingCollaborators atomicHiTail)).map
        (fun c => c.selectionBefore)
      ≠ some { anchorKey := "b", anchorOffset := 0, focusKey := "a", focusOffset := 0,
               isBackward := false } ∧
    committedChangeType (onBackspace specCollaborators atomicHiTail) = some "remove-range" ∧
    (committedDocument (onBackspace specCollaborators atomicHiTail)).map
        (fun c => c.selectionAfter) = some (caret "a" 0) ∧
    (committedDocument (onBackspace specCollaborators atomicHiTail)).map (fun c => c.keys)
      = some ["a"] ∧
    (committedDocument (onBackspace specCollaborators atomicHiTail)).map (fun c => c.keys)
      ≠ some ["a", "c"] :=
  ⟨rfl, rfl, by decide, rfl, rfl, rfl, by decide⟩

/-! ## C8: backspace that strips the block style -/

/-- C8. When the state passes the guard and the block before in document order
is absent or not atomic, `tryToRemoveBlockStyle` does not fail, `onBackspace`
returns the push of its document with the change type `change-block-type` when
it returns one, and null when it returns null. -/
theorem C8_onBackspace_strips_style (d : Collaborators) (editorState : EditorState)
    (currentBlock : ContentBlockNode)
    (hblock : editorState.currentContent.getBlockForKey editorState.selection.getStartKey
      = some currentBlock)
    (hguard : onBackspaceGuard editorState.currentContent editorState.selection currentBlock
      = .ok false)
    (hbefore : ∀ blockBefore,
      editorState.currentContent.getBlockBefore editorState.selection.getStartKey
        = some blockBefore → blockBefore.type ≠ "atomic") :
    (∃ r, tryToRemoveBlockStyle d editorState = .ok r) ∧
    (∀ c, tryToRemoveBlockStyle d editorState = .ok (some c) →
      onBackspace d editorState = .ok (some (d.push editorState c "change-block-type"))) ∧
    (tryToRemoveBlockStyle d editorState = .ok none → onBackspace d editorState = .ok none) := by
  obtain ⟨hc, ha, _⟩ := guard_false hguard
  have hattempt : onBackspaceAtomicAttempt d editorState currentBlock = none := by
    unfold onBackspaceAtomicAttempt
    cases hb : editorState.currentContent.getBlockBefore editorState.selection.getStartKey with
    | none => simp only [hb]
    | some blockBefore => simp only [hb]; rw [if_neg (hbefore blockBefore hb)]
  have hback : onBackspace d editorState = onBackspaceStyleAttempt d editorState := by
    simp only [onBackspace, hblock, hguard, hattempt]
  have hanchor : editorState.currentContent.getBlockForKey editorState.selection.anchorKey
      = some currentBlock := by
    rw [← startKey_of_collapsed hc]; exact hblock
  refine ⟨?_, ?_, ?_⟩
  · unfold tryToRemoveBlockStyle
    simp only [hc, ha, hanchor, and_self, if_true]
    split
    · exact ⟨_, rfl⟩
    · split
      · exact ⟨_, rfl⟩
      · exact ⟨_, rfl⟩
  · intro c h
    rw [hback, onBackspaceStyleAttempt, h]
  · intro h
    rw [hback, onBackspaceStyleAttempt, h]

/-- C8, scenario 3: a single code block with the caret at offset 0; the block
of the committed document is `unstyled` and the change type is
`change-block-type`. -/
theorem C8_onBackspace_strips_style_witness :
    tryToRemoveBlockStyle specCollaborators codeDoc
      = .ok (some (DraftModifier.setBlockType codeDoc.currentContent codeDoc.selection "unstyled")) ∧
    committedChangeType (onBackspace specCollaborators codeDoc) = some "change-block-type" ∧
    (committedDocument (onBackspace specCollaborators codeDoc)).map (fun c => c.blockMap)
      = some [plainBlock "a" "unstyled" "x=1"] := by
  have h := (C8_onBackspace_strips_style specCollaborators codeDoc
    (plainBlock "a" "code-block" "x=1") rfl rfl (fun _ hb => Option.noConfusion hb)).2.1
    (DraftModifier.setBlockType codeDoc.currentContent codeDoc.selection "unstyled") rfl
  refine ⟨rfl, ?_, ?_⟩
  · rw [h]; rfl
  · rw [h]; rfl

/-! ## C9: tryToRemoveBlockStyle -/

/-- C9. `tryToRemoveBlockStyle` returns null when the selection is not a caret
at offset 0. For a caret at offset 0 in an existing block it returns the result
of `setBlockType` with the type `unstyled` if and only if the type of the block
is not `unstyled` and the block is not a `code-block` preceded in document order
by a `code-block` of non-zero length; otherwise it returns null. In the document
that the reference `setBlockType` returns, the current block has the type
`unstyled` and its text. -/
theorem C9_tryToRemoveBlockStyle (d : Collaborators) (editorState : EditorState) :
    ((editorState.selection.isCollapsed = false ∨ editorState.selection.anchorOffset ≠ 0) →
      tryToRemoveBlockStyle d editorState = .ok none) ∧
    (∀ block : ContentBlockNode,
      editorState.selection.isCollapsed = true → editorState.selection.anchorOffset = 0 →
      editorState.currentContent.getBlockForKey editorState.selection.anchorKey = some block →
      ((block.type ≠ "unstyled" ∧
          ¬ (block.type = "code-block" ∧
            ∃ blockBefore,
              editorState.currentContent.getBlockBefore editorState.selection.anchorKey
                = some blockBefore ∧
              blockBefore.type = "code-block" ∧ blockBefore.getLength ≠ 0) →
        tryToRemoveBlockStyle d editorState
          = .ok (some (d.setBlockType editorState.currentContent editorState.selection
              "unstyled"))) ∧
      (¬ (block.type ≠ "unstyled" ∧
          ¬ (block.type = "code-block" ∧
            ∃ blockBefore,
              editorState.currentContent.getBlockBefore editorState.selection.anchorKey
                = some blockBefore ∧
              blockBefore.type = "code-block" ∧ blockBefore.getLength ≠ 0)) →
        tryToRemoveBlockStyle d editorState = .ok none) ∧
      ((DraftModifier.setBlockType editorState.currentContent editorState.selection
          "unstyled").getBlockForKey editorState.selection.anchorKey).map
        (fun b => (b.type, b.text)) = some ("unstyled", block.text))) := by
  constructor
  · intro h
    unfold tryToRemoveBlockStyle
    rw [if_neg]
    rcases h with h | h
    · simp [h]
    · simp [h]
  · intro block hc ha hblock
    refine ⟨?_, ?_, ?_⟩
    · rintro ⟨hun, hcode⟩
      unfold tryToRemoveBlockStyle
      simp only [hc, ha, hblock, and_self, if_true]
      rw [if_neg hcode, if_pos hun]
    · intro h
      unfold tryToRemoveBlockStyle
      simp only [hc, ha, hblock, and_self, if_true]
      by_cases hcode : block.type = "code-block" ∧
          ∃ blockBefore,
            editorState.currentContent.getBlockBefore editorState.selection.anchorKey
              = some blockBefore ∧
            blockBefore.type = "code-block" ∧ blockBefore.getLength ≠ 0
      · rw [if_pos hcode]
      · rw [if_neg hcode, if_neg]
        intro hun
        exact h ⟨hun, hcode⟩
    · have he := endKey_of_collapsed hc
      have := setBlockType_endBlock editorState.currentContent editorState.selection "unstyled"
        block (by rw [he]; exact hblock)
      rw [he] at this
      rw [this]
      rfl

/-- C9, at the code block of scenario 3 (a document) and at the unstyled block
Hello (null). -/
theorem C9_tryToRemoveBlockStyle_witness :
    tryToRemoveBlockStyle specCollaborators codeDoc
      = .ok (some (DraftModifier.setBlockType codeDoc.currentContent codeDoc.selection "unstyled")) ∧
    tryToRemoveBlockStyle specCollaborators (helloDoc (caret "a" 0)) = .ok none :=
  ⟨((C9_tryToRemoveBlockStyle specCollaborators codeDoc).2 (plainBlock "a" "code-block" "x=1")
      rfl rfl rfl).1 ⟨by decide, fun h => by obtain ⟨_, bb, hb, _⟩ := h; exact Option.noConfusion hb⟩,
   ((C9_tryToRemoveBlockStyle specCollaborators (helloDoc (caret "a" 0))).2
      (plainBlock "a" "unstyled" "Hello") rfl rfl rfl).2.1 (fun h => h.1 rfl)⟩

/-! ## C10: the table of handleKeyCommand -/

/-- C10. `handleKeyCommand` is the fixed table: `bold`, `italic` and
`underline` give `toggleInlineStyle` with `BOLD`, `ITALIC` and `UNDERLINE`;
`code` gives `toggleCode`; the three backspace commands give `onBackspace`; the
three delete commands give `onDelete`; every other name gives null, without
failure. -/
theorem C10_handleKeyCommand_table (d : Collaborators) (editorState : EditorState) :
    handleKeyCommand d editorState "bold" = .ok (some (toggleInlineStyle d editorState "BOLD")) ∧
    handleKeyCommand d editorState "italic"
      = .ok (some (toggleInlineStyle d editorState "ITALIC")) ∧
    handleKeyCommand d editorState "underline"
      = .ok (some (toggleInlineStyle d editorState "UNDERLINE")) ∧
    handleKeyCommand d editorState "code" = .ok (some (toggleCode d editorState)) ∧
    handleKeyCommand d editorState "backspace" = onBackspace d editorState ∧
    handleKeyCommand d editorState "backspace-word" = onBackspace d editorState ∧
    handleKeyCommand d editorState "backspace-to-start-of-line" = onBackspace d editorState ∧
    handleKeyCommand d editorState "delete" = onDelete d editorState ∧
    handleKeyCommand d editorState "delete-word" = onDelete d editorState ∧
    handleKeyCommand d editorState "delete-to-end-of-block" = onDelete d editorState ∧
    (∀ command : String,
      command ∉ ["bold", "italic", "underline", "code", "backspace", "backspace-word",
        "backspace-to-start-of-line", "delete", "delete-word", "delete-to-end-of-block"] →
      handleKeyCommand d editorState command = .ok none) := by
  refine ⟨rfl, rfl, rfl, rfl, rfl, rfl, rfl, rfl, rfl, rfl, ?_⟩
  intro command h
  simp only [List.mem_cons, List.mem_singleton, List.not_mem_nil, or_false, not_or] at h
  obtain ⟨h1, h2, h3, h4, h5, h6, h7, h8, h9, h10⟩ := h
  unfold handleKeyCommand
  split <;> first | rfl | contradiction

/-- C10, at a command name that is not in the table. -/
theorem C10_handleKeyCommand_table_witness :
    handleKeyCommand specCollaborators codeDoc "undo" = .ok none :=
  (C10_handleKeyCommand_table specCollaborators codeDoc).2.2.2.2.2.2.2.2.2.2 "undo" (by decide)

/-! ## C11: toggleCode -/

/-- C11. `toggleCode` is the flat block-type toggle with the type `code-block`
when the selection is collapsed or its anchor key differs from its focus key,
and the flat inline-style toggle with the style `CODE` otherwise, for a
selection that is not collapsed inside one block. -/
theorem C11_toggleCode_routes (d : Collaborators) (editorState : EditorState) :
    ((editorState.selection.isCollapsed = true ∨
        editorState.selection.anchorKey ≠ editorState.selection.focusKey) →
      toggleCode d editorState = d.flatToggleBlockType editorState "code-block") ∧
    ((editorState.selection.isCollapsed = false ∧
        editorState.selection.anchorKey = editorState.selection.focusKey) →
      toggleCode d editorState = d.flatToggleInlineStyle editorState "CODE") := by
  constructor
  · intro h
    unfold toggleCode
    simp only []
    rw [if_pos h]
  · rintro ⟨h1, h2⟩
    unfold toggleCode
    simp only []
    rw [if_neg]
    simp [h1, h2]

/-- C11, at the block Hello with a caret and with the range `ell`. -/
theorem C11_toggleCode_routes_witness :
    toggleCode specCollaborators (helloDoc (caret "a" 1))
      = RichTextEditorUtil.toggleBlockType (helloDoc (caret "a" 1)) "code-block" ∧
    toggleCode specCollaborators (helloDoc (rangeIn "a" 1 4))
      = RichTextEditorUtil.toggleInlineStyle (helloDoc (rangeIn "a" 1 4)) "CODE" :=
  ⟨(C11_toggleCode_routes specCollaborators (helloDoc (caret "a" 1))).1 (Or.inl rfl),
   (C11_toggleCode_routes specCollaborators (helloDoc (rangeIn "a" 1 4))).2 ⟨rfl, rfl⟩⟩

/-! ## C12 to C14: toggleInlineStyle -/

/-- C12. For a collapsed selection `toggleInlineStyle` is
`setInlineStyleOverride` with the current inline style from which the style is
removed when present and to which it is added when absent. With the reference
collaborators the document and the selection are unchanged and the override is
that style set. -/
theorem C12_toggleInlineStyle_collapsed (d : Collaborators) (editorState : EditorState)
    (inlineStyle : String) (hcollapsed : editorState.selection.isCollapsed = true) :
    toggleInlineStyle d editorState inlineStyle
      = d.setInlineStyleOverride editorState
          (if inlineStyle ∈ d.getCurrentInlineStyle editorState then
            (d.getCurrentInlineStyle editorState).erase inlineStyle
           else d.getCurrentInlineStyle editorState ++ [inlineStyle]) ∧
    (toggleInlineStyle specCollaborators editorState inlineStyle).currentContent
      = editorState.currentContent ∧
    (toggleInlineStyle specCollaborators editorState inlineStyle).selection
      = editorState.selection ∧
    (toggleInlineStyle specCollaborators editorState inlineStyle).inlineStyleOverride
      = some (if inlineStyle ∈ editorState.getCurrentInlineStyle then
            editorState.getCurrentInlineStyle.erase inlineStyle
          else editorState.getCurrentInlineStyle ++ [inlineStyle]) := by
  have h : ∀ d : Collaborators, toggleInlineStyle d editorState inlineStyle
      = d.setInlineStyleOverride editorState
          (if inlineStyle ∈ d.getCurrentInlineStyle editorState then
            (d.getCurrentInlineStyle editorState).erase inlineStyle
           else d.getCurrentInlineStyle editorState ++ [inlineStyle]) := by
    intro d
    unfold toggleInlineStyle
    simp only []
    rw [if_pos hcollapsed]
  refine ⟨h d, ?_, ?_, ?_⟩ <;> rw [h specCollaborators] <;> rfl

/-- C12, at the block Hello with a caret: the first toggle of `BOLD` sets the
override to `BOLD`, the second empties it. -/
theorem C12_toggleInlineStyle_collapsed_witness :
    (toggleInlineStyle specCollaborators (helloDoc (caret "a" 1)) "BOLD").inlineStyleOverride
      = some ["BOLD"] ∧
    (toggleInlineStyle specCollaborators
      (toggleInlineStyle specCollaborators (helloDoc (caret "a" 1)) "BOLD") "BOLD").inlineStyleOverride
      = some [] := by
  have h1 := (C12_toggleInlineStyle_collapsed specCollaborators (helloDoc (caret "a" 1)) "BOLD"
    rfl).2.2.2
  have h2 := (C12_toggleInlineStyle_collapsed specCollaborators
    (toggleInlineStyle specCollaborators (helloDoc (caret "a" 1)) "BOLD") "BOLD" rfl).2.2.2
  exact ⟨by rw [h1]; decide, by rw [h2]; decide⟩

/-- C13. For a selection that is not collapsed `toggleInlineStyle` commits with
the change type `change-inline-style` the document of `removeInlineStyle` when
the current inline style has the style, of `applyInlineStyle` when it lacks it.
With the reference collaborators every character keeps its entity and its
other styles; a character of the range has the style afterwards exactly when
the current inline style lacked it; a character outside the range is
unchanged. -/
theorem C13_toggleInlineStyle_range (editorState : EditorState) (inlineStyle : String)
    (hrange : editorState.selection.isCollapsed = false) :
    (∀ d : Collaborators,
      toggleInlineStyle d editorState inlineStyle
        = d.push editorState
            (if inlineStyle ∈ d.getCurrentInlineStyle editorState then
              d.removeInlineStyle editorState.currentContent editorState.selection inlineStyle
             else d.applyInlineStyle editorState.currentContent editorState.selection inlineStyle)
            "change-inline-style") ∧
    (toggleInlineStyle specCollaborators editorState inlineStyle).lastChangeType
      = some "change-inline-style" ∧
    (∀ (key : String) (b : ContentBlockNode) (i : Nat) (ch : CharacterMetadata),
      editorState.currentContent.getBlockForKey key = some b →
      b.characterList.get? i = some ch →
      ∃ ch', (toggleInlineStyle specCollaborators editorState inlineStyle).currentContent.charAt
          key i = some ch' ∧
        ch'.entity = ch.entity ∧
        (∀ t, t ≠ inlineStyle → (t ∈ ch'.style ↔ t ∈ ch.style)) ∧
        (editorState.selection.coversChar editorState.currentContent b i →
          (inlineStyle ∈ ch'.style ↔ inlineStyle ∉ editorState.getCurrentInlineStyle)) ∧
        (¬ editorState.selection.coversChar editorState.currentContent b i → ch' = ch)) := by
  refine ⟨fun d => toggleInlineStyle_range d editorState inlineStyle hrange, ?_, ?_⟩
  · rw [toggleInlineStyle_range specCollaborators editorState inlineStyle hrange]
    rfl
  · intro key b i ch hb hch
    rw [toggleInlineStyle_range specCollaborators editorState inlineStyle hrange]
    show ∃ ch', (if inlineStyle ∈ editorState.getCurrentInlineStyle then
        DraftModifier.removeInlineStyle editorState.currentContent editorState.selection
          inlineStyle
       else DraftModifier.applyInlineStyle editorState.currentContent editorState.selection
          inlineStyle).charAt key i = some ch' ∧ _
    by_cases hs : inlineStyle ∈ editorState.getCurrentInlineStyle
    · rw [if_pos hs]
      unfold DraftModifier.removeInlineStyle
      rw [modifyInlineStyle_charAt _ _ _ key b i ch hb hch]
      refine ⟨_, rfl, ?_, ?_, ?_, ?_⟩
      · split <;> rfl
      · intro t ht
        split
        · simp [List.mem_filter, ht]
        · rfl
      · intro hc
        rw [if_pos hc]
        simp [List.mem_filter, hs]
      · intro hc
        rw [if_neg hc]
    · rw [if_neg hs]
      unfold DraftModifier.applyInlineStyle
      rw [modifyInlineStyle_charAt _ _ _ key b i ch hb hch]
      refine ⟨_, rfl, ?_, ?_, ?_, ?_⟩
      · split
        · split <;> rfl
        · rfl
      · intro t ht
        split
        · split
          · rfl
          · simp [ht]
        · rfl
      · intro hc
        rw [if_pos hc]
        split
        · simp [hs, *]
        · simp [hs]
      · intro hc
        rw [if_neg hc]

/-- C13, scenario 4: the range `ell` of Hello; the characters of offsets 1 to 3
gain `BOLD`, those of offsets 0 and 4 are unaffected. -/
theorem C13_toggleInlineStyle_range_witness :
    (toggleInlineStyle specCollaborators (helloDoc (rangeIn "a" 1 4)) "BOLD").lastChangeType
      = some "change-inline-style" ∧
    (toggleInlineStyle specCollaborators (helloDoc (rangeIn "a" 1 4))
        "BOLD").currentContent.blockMap.map (fun b => b.characterList.map (fun ch => ch.style))
      = [[[], ["BOLD"], ["BOLD"], ["BOLD"], []]] :=
  ⟨(C13_toggleInlineStyle_range (helloDoc (rangeIn "a" 1 4)) "BOLD" rfl).2.1, rfl⟩

/-- C14 as stated fails. In `mixedHello` the range `ell` has one bold character
and the character at its start is not bold: the first toggle makes the three
characters bold, the second removes `BOLD` from all three, and the middle
character has lost the style it had. -/
theorem C14_toggle_twice_counterexample :
    (toggleInlineStyle specCollaborators
      (toggleInlineStyle specCollaborators mixedHello "BOLD") "BOLD").selection
      = mixedHello.selection ∧
    mixedHello.currentContent.styles = [[[], [], ["BOLD"], [], []]] ∧
    (toggleInlineStyle specCollaborators mixedHello "BOLD").currentContent.styles
      = [[[], ["BOLD"], ["BOLD"], ["BOLD"], []]] ∧
    (toggleInlineStyle specCollaborators
      (toggleInlineStyle specCollaborators mixedHello "BOLD") "BOLD").currentContent.styles
      = [[[], [], [], [], []]] ∧
    (toggleInlineStyle specCollaborators
      (toggleInlineStyle specCollaborators mixedHello "BOLD") "BOLD").currentContent.styles
      ≠ mixedHello.currentContent.styles :=
  ⟨rfl, rfl, rfl, rfl, by decide⟩

/-- C14, amended. When the character at the start of the selection belongs to
the range and every character of the range has the style exactly when the
current inline style has it, two toggles of the style in a row leave the
selection as it was and give every character of the document its entity and
its set of styles back. -/
theorem C14_toggleInlineStyle_twice (editorState : EditorState) (inlineStyle : String)
    (startBlock : ContentBlockNode) (startChar : CharacterMetadata)
    (hrange : editorState.selection.isCollapsed = false)
    (hstart : editorState.currentContent.getBlockForKey editorState.selection.getStartKey
      = some startBlock)
    (hchar : startBlock.characterList.get? editorState.selection.getStartOffset
      = some startChar)
    (hin : editorState.selection.coversChar editorState.currentContent startBlock
      editorState.selection.getStartOffset)
    (huniform : ∀ (key : String) (b : ContentBlockNode) (i : Nat) (ch : CharacterMetadata),
      editorState.currentContent.getBlockForKey key = some b →
      b.characterList.get? i = some ch →
      editorState.selection.coversChar editorState.currentContent b i →
      (inlineStyle ∈ ch.style ↔ inlineStyle ∈ editorState.getCurrentInlineStyle)) :
    (toggleInlineStyle specCollaborators
      (toggleInlineStyle specCollaborators editorState inlineStyle) inlineStyle).selection
      = editorState.selection ∧
    (∀ (key : String) (b : ContentBlockNode) (i : Nat) (ch : CharacterMetadata),
      editorState.currentContent.getBlockForKey key = some b →
      b.characterList.get? i = some ch →
      ∃ ch', (toggleInlineStyle specCollaborators
          (toggleInlineStyle specCollaborators editorState inlineStyle)
          inlineStyle).currentContent.charAt key i = some ch' ∧
        ch'.entity = ch.entity ∧ ∀ t, t ∈ ch'.style ↔ t ∈ ch.style) := by
  have h1 := toggleInlineStyle_spec_range editorState inlineStyle hrange
  have hsel1 : (toggleInlineStyle specCollaborators editorState inlineStyle).selection
      = editorState.selection := by rw [h1]; rfl
  have hcontent1 : (toggleInlineStyle specCollaborators editorState inlineStyle).currentContent
      = DraftModifier.modifyInlineStyle editorState.currentContent editorState.selection
          (styleChange inlineStyle editorState.getCurrentInlineStyle) := by rw [h1]; rfl
  have hover1 : (toggleInlineStyle specCollaborators editorState inlineStyle).inlineStyleOverride
      = none := by
    rw [h1]
    simp [EditorState.push]
  have hrange1 : (toggleInlineStyle specCollaborators editorState inlineStyle).selection.isCollapsed
      = false := by rw [hsel1]; exact hrange
  have hcur1 : (toggleInlineStyle specCollaborators editorState
      inlineStyle).getCurrentInlineStyle
      = (styleChange inlineStyle editorState.getCurrentInlineStyle startChar).style := by
    apply getCurrentInlineStyle_of_charAt _ _ hover1
    rw [hsel1, hcontent1,
      modifyInlineStyle_charAt _ _ _ _ startBlock _ startChar hstart hchar, if_pos hin]
  have h2 := toggleInlineStyle_spec_range
    (toggleInlineStyle specCollaborators editorState inlineStyle) inlineStyle hrange1
  rw [hsel1, hcontent1, hcur1] at h2
  constructor
  · rw [h2]; rfl
  · intro key b i ch hb hch
    rw [h2]
    show ∃ ch', (DraftModifier.modifyInlineStyle
        (DraftModifier.modifyInlineStyle editorState.currentContent editorState.selection
          (styleChange inlineStyle editorState.getCurrentInlineStyle))
        editorState.selection _).charAt key i = some ch' ∧ _
    rw [modifyInlineStyle_twice_charAt _ _ _ _ key b i ch hb hch]
    by_cases hc : editorState.selection.coversChar editorState.currentContent b i
    · rw [if_pos hc]
      refine ⟨_, rfl, ?_, ?_⟩
      · rw [styleChange_entity, styleChange_entity]
      · intro t
        by_cases ht : t = inlineStyle
        · subst ht
          rw [styleChange_self, styleChange_self, huniform key b i ch hb hch hc]
          simp
        · rw [styleChange_other _ _ _ _ ht, styleChange_other _ _ _ _ ht]
    · rw [if_neg hc]
      exact ⟨_, rfl, rfl, fun _ => Iff.rfl⟩

/-- C14 amended, at the range `ell` of the plain block Hello. -/
theorem C14_toggleInlineStyle_twice_witness :
    (toggleInlineStyle specCollaborators
      (toggleInlineStyle specCollaborators (helloDoc (rangeIn "a" 1 4)) "BOLD")
      "BOLD").currentContent.styles
      = (helloDoc (rangeIn "a" 1 4)).currentContent.styles ∧
    (toggleInlineStyle specCollaborators
      (toggleInlineStyle specCollaborators (helloDoc (rangeIn "a" 1 4)) "BOLD")
      "BOLD").selection = rangeIn "a" 1 4 := by
  refine ⟨rfl, ?_⟩
  exact (C14_toggleInlineStyle_twice (helloDoc (rangeIn "a" 1 4)) "BOLD"
    (plainBlock "a" "unstyled" "Hello") { style := [], entity := none } rfl rfl rfl (by decide)
    (by
      intro key b i ch hb hch _
      have hk : b.key = key := key_of_getBlockForKey hb
      have hmem := List.mem_of_find?_eq_some hb
      have hb' : b = plainBlock "a" "unstyled" "Hello" := by
        simpa [helloDoc, editorOf] using hmem
      subst hb'
      have hch' : ch ∈ (plainBlock "a" "unstyled" "Hello").characterList :=
        List.mem_iff_get?.2 ⟨i, hch⟩
      have hstyle : ch.style = [] := by
        simp [plainBlock] at hch'
        rw [hch']
      rw [hstyle]
      decide)).1

/-! ## C15 to C17: onTab -/

/-- C15. When every block of the document has a depth within the maximum, the
depth adjuster keeps depths within the maximum and a push commits the blocks it
is given, `onTab` returns an editor state in which every block has a depth
between 0 and the maximum, with or without the shift key. -/
theorem C15_onTab_depth_bounds (d : Collaborators)
    (adjust : ContentState → SelectionState → Int → Nat → ContentState)
    (event : KeyboardEvent) (editorState : EditorState) (maxDepth : Nat)
    (block : ContentBlockNode)
    (hblock : editorState.currentContent.getBlockForKey editorState.selection.anchorKey
      = some block)
    (hin : ∀ b ∈ editorState.currentContent.blockMap, b.depth ≤ maxDepth)
    (hclamp : ∀ (content : ContentState) (selection : SelectionState) (adjustment : Int),
      (∀ b ∈ content.blockMap, b.depth ≤ maxDepth) →
      ∀ b ∈ (adjust content selection adjustment maxDepth).blockMap, b.depth ≤ maxDepth)
    (hpush : ∀ (es : EditorState) (content : ContentState) (changeType : String),
      (d.push es content changeType).currentContent.blockMap = content.blockMap) :
    ∃ result, onTab d adjust event editorState maxDepth = .ok result ∧
      ∀ b ∈ result.1.currentContent.blockMap, 0 ≤ b.depth ∧ b.depth ≤ maxDepth := by
  unfold onTab
  simp only []
  split
  · exact ⟨_, rfl, fun b hb => ⟨Nat.zero_le _, hin b hb⟩⟩
  · simp only [hblock]
    split
    · exact ⟨_, rfl, fun b hb => ⟨Nat.zero_le _, hin b hb⟩⟩
    · split
      · exact ⟨_, rfl, fun b hb => ⟨Nat.zero_le _, hin b hb⟩⟩
      · refine ⟨_, rfl, fun b hb => ⟨Nat.zero_le _, ?_⟩⟩
        simp only [hpush] at hb
        exact hclamp _ _ _ hin b hb

/-- C15, scenario 5 with the reference adjuster and push. -/
theorem C15_onTab_depth_bounds_witness :
    ∃ result, onTab specCollaborators adjustBlockDepthForContentState tabKey listDoc 4
        = .ok result ∧
      ∀ b ∈ result.1.currentContent.blockMap, 0 ≤ b.depth ∧ b.depth ≤ 4 :=
  C15_onTab_depth_bounds specCollaborators adjustBlockDepthForContentState tabKey listDoc 4
    (listItem "a" 3 "item") rfl (by decide)
    (fun content selection adjustment hin =>
      adjustBlockDepth_clamps content selection adjustment 4 hin)
    (fun _ _ _ => rfl)

/-- C16. For a selection inside one list item and a tab without shift: below
the maximal depth `onTab` commits the document of the depth adjuster for the
adjustment 1 with the change type `adjust-depth`, and with the reference
adjuster the depth of the block is one more; at the maximal depth `onTab`
returns the input editor state; in both cases the event leaves the handler with
its default prevented. -/
theorem C16_onTab_list_item (d : Collaborators)
    (adjust : ContentState → SelectionState → Int → Nat → ContentState)
    (event : KeyboardEvent) (editorState : EditorState) (maxDepth : Nat)
    (block : ContentBlockNode)
    (hkey : editorState.selection.anchorKey = editorState.selection.focusKey)
    (hblock : editorState.currentContent.getBlockForKey editorState.selection.anchorKey
      = some block)
    (htype : block.type = "unordered-list-item" ∨ block.type = "ordered-list-item")
    (hshift : event.shiftKey = false) :
    (block.depth < maxDepth →
      onTab d adjust event editorState maxDepth
        = .ok (d.push editorState
            (adjust editorState.currentContent editorState.selection 1 maxDepth) "adjust-depth",
          event.preventDefault) ∧
      ((adjustBlockDepthForContentState editorState.currentContent editorState.selection 1
          maxDepth).getBlockForKey editorState.selection.anchorKey).map (fun b => b.depth)
        = some (block.depth + 1)) ∧
    (block.depth = maxDepth →
      onTab d adjust event editorState maxDepth = .ok (editorState, event.preventDefault)) ∧
    event.preventDefault.defaultPrevented = true := by
  have hnot : ¬ (block.type ≠ "unordered-list-item" ∧ block.type ≠ "ordered-list-item") := by
    rintro ⟨h1, h2⟩
    rcases htype with h | h
    · exact h1 h
    · exact h2 h
  have hs : event.preventDefault.shiftKey = false := hshift
  refine ⟨?_, ?_, rfl⟩
  · intro hlt
    constructor
    · unfold onTab
      simp only [hblock]
      rw [if_neg (not_not.2 hkey), if_neg hnot, if_neg (by omega)]
      simp [hs]
    · have hend : editorState.selection.getEndKey = editorState.selection.anchorKey := by
        unfold SelectionState.getEndKey
        split
        · rfl
        · exact hkey.symm
      have := adjustBlockDepth_endBlock editorState.currentContent editorState.selection 1
        maxDepth block (by rw [hend]; exact hblock)
      rw [hend] at this
      rw [this]
      simp only [Option.map_some']
      congr 1
      omega
  · intro heq
    unfold onTab
    simp only [hblock]
    rw [if_neg (not_not.2 hkey), if_neg hnot, if_pos ⟨hs, heq⟩]

/-- C16, scenario 5: at depth 3 with the maximum 4 the first Tab gives depth 4
with `adjust-depth`, the second returns the state unchanged, and the event is
intercepted both times. -/
theorem C16_onTab_list_item_witness :
    onTab specCollaborators adjustBlockDepthForContentState tabKey listDoc 4
      = .ok (listDocAfterTab, tabKey.preventDefault) ∧
    listDocAfterTab.currentContent.blockMap.map (fun b => b.depth) = [4] ∧
    listDocAfterTab.lastChangeType = some "adjust-depth" ∧
    onTab specCollaborators adjustBlockDepthForContentState tabKey listDocAfterTab 4
      = .ok (listDocAfterTab, tabKey.preventDefault) ∧
    tabKey.preventDefault.defaultPrevented = true :=
  ⟨((C16_onTab_list_item specCollaborators adjustBlockDepthForContentState tabKey listDoc 4
      (listItem "a" 3 "item") rfl rfl (Or.inl rfl) rfl).1 (by decide)).1,
   rfl, rfl,
   (C16_onTab_list_item specCollaborators adjustBlockDepthForContentState tabKey listDocAfterTab 4
      (listItem "a" 4 "item") rfl rfl (Or.inl rfl) rfl).2.1 rfl,
   rfl⟩

/-- C17. When the anchor key differs from the focus key, or the block of the
anchor key is not a list item, `onTab` returns the input editor state and the
event as it came, `preventDefault` not called. In every other case the event
leaves the handler after `preventDefault`. -/
theorem C17_onTab_interception (d : Collaborators)
    (adjust : ContentState → SelectionState → Int → Nat → ContentState)
    (event : KeyboardEvent) (editorState : EditorState) (maxDepth : Nat) :
    (editorState.selection.anchorKey ≠ editorState.selection.focusKey →
      onTab d adjust event editorState maxDepth = .ok (editorState, event)) ∧
    (∀ block : ContentBlockNode,
      editorState.currentContent.getBlockForKey editorState.selection.anchorKey = some block →
      ((block.type ≠ "unordered-list-item" ∧ block.type ≠ "ordered-list-item") →
        onTab d adjust event editorState maxDepth = .ok (editorState, event)) ∧
      (editorState.selection.anchorKey = editorState.selection.focusKey →
        (block.type = "unordered-list-item" ∨ block.type = "ordered-list-item") →
        ∃ es, onTab d adjust event editorState maxDepth = .ok (es, event.preventDefault))) := by
  constructor
  · intro h
    unfold onTab
    simp only []
    rw [if_pos h]
  · intro block hblock
    constructor
    · intro h
      unfold onTab
      simp only [hblock]
      rw [if_pos h]
      split <;> rfl
    · intro hkey htype
      have hnot : ¬ (block.type ≠ "unordered-list-item" ∧ block.type ≠ "ordered-list-item") := by
        rintro ⟨h1, h2⟩
        rcases htype with h | h
        · exact h1 h
        · exact h2 h
      unfold onTab
      simp only [hblock]
      rw [if_neg (not_not.2 hkey), if_neg hnot]
      split
      · exact ⟨_, rfl⟩
      · exact ⟨_, rfl⟩

/-- C17, at an unstyled block, at a selection across two blocks and at a list
item. -/
theorem C17_onTab_interception_witness :
    onTab specCollaborators adjustBlockDepthForContentState tabKey (helloDoc (caret "a" 1)) 4
      = .ok (helloDoc (caret "a" 1), tabKey) ∧
    onTab specCollaborators adjustBlockDepthForContentState tabKey (linkDoc acrossBlocks) 4
      = .ok (linkDoc acrossBlocks, tabKey) ∧
    ∃ es, onTab specCollaborators adjustBlockDepthForContentState tabKey listDoc 4
      = .ok (es, tabKey.preventDefault) :=
  ⟨((C17_onTab_interception specCollaborators adjustBlockDepthForContentState tabKey
      (helloDoc (caret "a" 1)) 4).2 (plainBlock "a" "unstyled" "Hello") rfl).1 (by decide),
   (C17_onTab_interception specCollaborators adjustBlockDepthForContentState tabKey
      (linkDoc acrossBlocks) 4).1 (by decide),
   ((C17_onTab_interception specCollaborators adjustBlockDepthForContentState tabKey
      listDoc 4).2 (listItem "a" 3 "item") rfl).2 rfl (Or.inl rfl)⟩

/-! ## C18: currentBlockContainsLink -/

/-- C18 as stated fails for a selection across blocks. In `linkDoc` with the
selection from the start of `a` to offset 2 of `b`, the character of offset 3
of `a` is inside the range and refers to a link, and the query returns false:
it looks at the characters of offsets 0 and 1 of the block of the anchor key. -/
theorem C18_link_across_blocks_counterexample :
    currentBlockContainsLink (linkDoc acrossBlocks) = .ok false ∧
    (linkDoc acrossBlocks).currentContent.getBlockForKey "a"
      = some { plainBlock "a" "unstyled" "Hello" with
          characterList :=
            [ { style := [], entity := none }, { style := [], entity := none },
              { style := [], entity := none }, { style := [], entity := some "1" },
              { style := [], entity := none } ] } ∧
    acrossBlocks.coversChar (linkDoc acrossBlocks).currentContent
      { plainBlock "a" "unstyled" "Hello" with
        characterList :=
          [ { style := [], entity := none }, { style := [], entity := none },
            { style := [], entity := none }, { style := [], entity := some "1" },
            { style := [], entity := none } ] } 3 ∧
    (linkDoc acrossBlocks).currentContent.charAt "a" 3
      = some { style := [], entity := some "1" } ∧
    (linkDoc acrossBlocks).currentContent.entityMap.lookup "1"
      = some { type := "LINK", data := "url" } :=
  ⟨rfl, rfl, by decide, rfl, rfl⟩

/-- C18, amended. For a selection inside one block, every entity key of that
block being in the entity map, `currentBlockContainsLink` returns a boolean,
which is true if and only if a character inside the range of the selection
refers to an entity that the entity map has with the type `LINK`. -/
theorem C18_currentBlockContainsLink (editorState : EditorState) (block : ContentBlockNode)
    (hkey : editorState.selection.anchorKey = editorState.selection.focusKey)
    (hblock : editorState.currentContent.getBlockForKey editorState.selection.anchorKey
      = some block)
    (hresolve : ∀ ch ∈ block.characterList, ∀ e, ch.entity = some e →
      ∃ inst, editorState.currentContent.entityMap.lookup e = some inst) :
    (currentBlockContainsLink editorState = .ok true ∨
      currentBlockContainsLink editorState = .ok false) ∧
    (currentBlockContainsLink editorState = .ok true ↔
      ∃ (key : String) (b : ContentBlockNode) (i : Nat) (ch : CharacterMetadata) (e : String)
        (inst : DraftEntityInstance),
        editorState.currentContent.getBlockForKey key = some b ∧
        editorState.selection.coversChar editorState.currentContent b i ∧
        b.characterList.get? i = some ch ∧ ch.entity = some e ∧
        editorState.currentContent.entityMap.lookup e = some inst ∧ inst.type = "LINK") := by
  have hsk : editorState.selection.getStartKey = editorState.selection.anchorKey := by
    unfold SelectionState.getStartKey
    split
    · exact hkey.symm
    · rfl
  have hek : editorState.selection.getEndKey = editorState.selection.anchorKey := by
    unfold SelectionState.getEndKey
    split
    · rfl
    · exact hkey.symm
  have hbk : block.key = editorState.selection.anchorKey := key_of_getBlockForKey hblock
  have hcov : ∀ (b : ContentBlockNode) (i : Nat),
      editorState.selection.coversChar editorState.currentContent b i ↔
        b.key = editorState.selection.anchorKey ∧ editorState.selection.getStartOffset ≤ i ∧
          i < editorState.selection.getEndOffset := by
    intro b i
    unfold SelectionState.coversChar
    rw [hsk, hek, rangeKeys_self]
    constructor
    · rintro ⟨h1, h2, h3⟩
      have hb : b.key = editorState.selection.anchorKey := by simpa using h1
      rw [if_pos hb] at h2 h3
      exact ⟨hb, h2, h3⟩
    · rintro ⟨hb, h2, h3⟩
      rw [if_pos hb, if_pos hb]
      exact ⟨by simp [hb], h2, h3⟩
  have hdef : currentBlockContainsLink editorState
      = someLink editorState.currentContent.entityMap
          ((block.characterList.drop editorState.selection.getStartOffset).take
            (editorState.selection.getEndOffset - editorState.selection.getStartOffset)) := by
    simp only [currentBlockContainsLink, hblock]
  have hspec := someLink_spec editorState.currentContent.entityMap
    ((block.characterList.drop editorState.selection.getStartOffset).take
      (editorState.selection.getEndOffset - editorState.selection.getStartOffset))
    (fun ch hch => hresolve ch (List.mem_of_mem_drop (List.mem_of_mem_take hch)))
  rw [hdef]
  refine ⟨hspec.1, hspec.2.trans ⟨?_, ?_⟩⟩
  · rintro ⟨ch, hch, e, inst, he, hl, ht⟩
    obtain ⟨i, h1, h2, h3⟩ := (mem_slice _ _ _ _).1 hch
    exact ⟨_, block, i, ch, e, inst, hblock, (hcov block i).2 ⟨hbk, h1, h2⟩, h3, he, hl, ht⟩
  · rintro ⟨key, b, i, ch, e, inst, hb, hc, hch, he, hl, ht⟩
    obtain ⟨hbkey, h1, h2⟩ := (hcov b i).1 hc
    have hkk : key = editorState.selection.anchorKey := by
      rw [← key_of_getBlockForKey hb]; exact hbkey
    subst hkk
    rw [hblock] at hb
    cases hb
    exact ⟨ch, (mem_slice _ _ _ _).2 ⟨i, h1, h2, hch⟩, e, inst, he, hl, ht⟩

/-- C18 amended, at `linkDoc`: true for the range from 2 to 4, false for the
range from 0 to 3. -/
theorem C18_currentBlockContainsLink_witness :
    currentBlockContainsLink (linkDoc (rangeIn "a" 2 4)) = .ok true ∧
    currentBlockContainsLink (linkDoc (rangeIn "a" 0 3)) = .ok false := by
  have hres : ∀ ch ∈ ({ plainBlock "a" "unstyled" "Hello" with
        characterList :=
          [ { style := [], entity := none }, { style := [], entity := none },
            { style := [], entity := none }, { style := [], entity := some "1" },
            { style := [], entity := none } ] } : ContentBlockNode).characterList,
      ∀ e, ch.entity = some e →
        ∃ inst, (linkDoc (rangeIn "a" 2 4)).currentContent.entityMap.lookup e = some inst := by
    intro ch hch e he
    simp only [List.mem_cons, List.mem_singleton, List.not_mem_nil, or_false] at hch
    rcases hch with rfl | rfl | rfl | rfl | rfl
    all_goals first | exact Option.noConfusion he | (cases he; exact ⟨_, rfl⟩)
  refine ⟨((C18_currentBlockContainsLink (linkDoc (rangeIn "a" 2 4)) _ rfl rfl hres).2).2
    ⟨"a", _, 3, _, "1", _, rfl, by decide, rfl, rfl, rfl, rfl⟩, rfl⟩

/-! ## C19: validity of the selection after a deletion -/

/-- C19. When the selection is valid in the document, every editor state that
`onDelete` or `onBackspace` returns has a selection that is valid in its
document: both keys name a block of it and both offsets lie within the length
of that block. The collaborators are the reference ones and the keys of the
document are distinct. -/
theorem C19_selection_valid (editorState : EditorState)
    (hnodup : editorState.currentContent.keysNodup)
    (hvalid : editorState.selection.validIn editorState.currentContent) :
    (∀ es, onDelete specCollaborators editorState = .ok (some es) →
      es.selection.validIn es.currentContent) ∧
    (∀ es, onBackspace specCollaborators editorState = .ok (some es) →
      es.selection.validIn es.currentContent) := by
  constructor
  · intro es h
    obtain ⟨block, blockAfter, hc, hblock, hoff, hafter, rfl⟩ := onDelete_some _ _ _ h
    show (DraftModifier.removeRange editorState.currentContent
        (onDeleteRange editorState.selection blockAfter) "forward").selectionAfter.validIn
      (DraftModifier.removeRange editorState.currentContent
        (onDeleteRange editorState.selection blockAfter) "forward")
    obtain ⟨hmem, hne⟩ := after_mem_ne _ _ _ hafter
    have hne := hne hnodup
    have hfind : editorState.currentContent.getBlockForKey blockAfter.key = some blockAfter :=
      find_of_mem_nodup _ _ hnodup hmem
    have hsk := startKey_of_collapsed hc
    rw [hsk] at hblock hne
    have hnc : (onDeleteRange editorState.selection blockAfter).isCollapsed = false := by
      simp [onDeleteRange, SelectionState.isCollapsed, Ne.symm hne]
    cases hb : editorState.selection.isBackward with
    | false =>
      refine removeRange_valid _ _ _ block blockAfter hnc ?_ ?_ ?_
      · simpa [onDeleteRange, SelectionState.getStartKey, hb] using hblock
      · simpa [onDeleteRange, SelectionState.getEndKey, hb] using hfind
      · obtain ⟨⟨b1, h1, h1'⟩, _⟩ := hvalid
        rw [hblock] at h1
        cases h1
        simpa [onDeleteRange, SelectionState.getStartOffset, hb] using h1'
    | true =>
      refine removeRange_valid _ _ _ blockAfter block hnc ?_ ?_ ?_
      · simpa [onDeleteRange, SelectionState.getStartKey, hb] using hfind
      · simpa [onDeleteRange, SelectionState.getEndKey, hb] using hblock
      · simp [onDeleteRange, SelectionState.getStartOffset, hb]
  · intro es h
    obtain ⟨currentBlock, hblock, hguard, h | h⟩ := onBackspace_some _ _ _ h
    · obtain ⟨blockBefore, hbefore, rfl⟩ := h
      obtain ⟨hc, ha, hf⟩ := guard_false hguard
      obtain ⟨hmem, hne⟩ := before_mem_ne _ _ _ hbefore
      have hne := hne hnodup
      have hfind : editorState.currentContent.getBlockForKey blockBefore.key
          = some blockBefore := find_of_mem_nodup _ _ hnodup hmem
      have hnc : (onBackspaceRange editorState.selection editorState.selection.getStartKey
          currentBlock blockBefore).isCollapsed = false := by
        simp [onBackspaceRange, SelectionState.isCollapsed, Ne.symm hne]
      have hstart := removeRange_start_block editorState.currentContent
        (onBackspaceRange editorState.selection editorState.selection.getStartKey
          currentBlock blockBefore) "forward" currentBlock blockBefore hnc hblock hfind
      have hsk := startKey_of_collapsed hc
      have hfk : editorState.selection.focusKey = editorState.selection.anchorKey := by
        unfold SelectionState.isCollapsed at hc
        simp only [Bool.and_eq_true, beq_iff_eq] at hc
        exact hc.1.symm
      show editorState.selection.validIn
        (onBackspaceDocument specCollaborators editorState.currentContent
          editorState.selection editorState.selection.getStartKey currentBlock blockBefore)
      have hstart' : ∃ b, (onBackspaceDocument specCollaborators editorState.currentContent
          editorState.selection editorState.selection.getStartKey currentBlock
          blockBefore).getBlockForKey editorState.selection.anchorKey = some b :=
        ⟨_, by rw [← hsk]; exact hstart⟩
      obtain ⟨b, hb⟩ := hstart'
      refine ⟨⟨b, hb, ?_⟩, ⟨b, by rw [hfk]; exact hb, ?_⟩⟩
      · rw [ha]; exact Nat.zero_le _
      · rw [hf]; exact Nat.zero_le _
    · subst h
      show editorState.selection.validIn
        (DraftModifier.setBlockType editorState.currentContent editorState.selection
          "unstyled")
      exact validIn_map _ _ _ _ (by intro b; split <;> rfl) (by intro b; split <;> rfl) rfl
        hvalid

/-- C19, at scenario 2 for `onDelete` and at `atomicThenHi` for `onBackspace`,
where the selection of before the edit is installed again. -/
theorem C19_selection_valid_witness :
    onDelete specCollaborators hiAtomic = .ok (some (EditorState.push hiAtomic
      (DraftModifier.removeRange hiAtomic.currentContent
        (onDeleteRange hiAtomic.selection (plainBlock "b" "atomic" " ")) "forward")
      "remove-range")) ∧
    (EditorState.push hiAtomic
      (DraftModifier.removeRange hiAtomic.currentContent
        (onDeleteRange hiAtomic.selection (plainBlock "b" "atomic" " ")) "forward")
      "remove-range").selection.validIn
      (EditorState.push hiAtomic
        (DraftModifier.removeRange hiAtomic.currentContent
          (onDeleteRange hiAtomic.selection (plainBlock "b" "atomic" " ")) "forward")
        "remove-range").currentContent ∧
    (∃ es, onBackspace specCollaborators atomicThenHi = .ok (some es) ∧
      es.selection = caret "a" 0 ∧ es.selection.validIn es.currentContent) :=
  ⟨rfl,
   (C19_selection_valid hiAtomic (by decide) ⟨⟨_, rfl, by decide⟩, ⟨_, rfl, by decide⟩⟩).1 _ rfl,
   ⟨_, rfl, rfl,
    (C19_selection_valid atomicThenHi (by decide)
      ⟨⟨_, rfl, by decide⟩, ⟨_, rfl, by decide⟩⟩).2 _ rfl⟩⟩

/-! ## C20: when toggleBlockType reaches the flat toggle -/

/-- C20. For a target type `code-block` or `atomic`: when the anchor and focus
keys are equal and the block at the start of the selection has no child,
`toggleBlockType` is the flat block-type toggle; and the result depends on the
collaborators only in that case, so the flat toggle is never asked to give such
a type to a block with children or to a range over several blocks. -/
theorem C20_toggleBlockType_flat_only_if (editorState : EditorState) (blockType : String)
    (currentBlock : ContentBlockNode)
    (hblock : editorState.currentContent.getBlockForKey editorState.selection.getStartKey
      = some currentBlock)
    (htype : blockType = "code-block" ∨ blockType = "atomic") :
    ((editorState.selection.anchorKey = editorState.selection.focusKey ∧
        currentBlock.children = []) →
      ∀ d : Collaborators,
        toggleBlockType d editorState blockType
          = .ok (d.flatToggleBlockType editorState blockType)) ∧
    (∀ d1 d2 : Collaborators,
      toggleBlockType d1 editorState blockType ≠ toggleBlockType d2 editorState blockType →
      editorState.selection.anchorKey = editorState.selection.focusKey ∧
        currentBlock.children = []) := by
  have hmem : blockType ∈ NESTING_DISABLED_TYPES := by
    rcases htype with h | h <;> simp [NESTING_DISABLED_TYPES, h]
  constructor
  · rintro ⟨h1, h2⟩ d
    simp only [toggleBlockType, hblock]
    rw [if_neg (by simp [h1, h2]), if_pos (Or.inr (Or.inr (Or.inl hmem)))]
  · intro d1 d2 hne
    by_contra hcon
    apply hne
    have hsel : editorState.selection.anchorKey ≠ editorState.selection.focusKey ∨
        currentBlock.children ≠ [] := by
      by_cases h1 : editorState.selection.anchorKey = editorState.selection.focusKey
      · right
        intro h2
        exact hcon ⟨h1, h2⟩
      · exact Or.inl h1
    simp only [toggleBlockType, hblock]
    rw [if_pos ⟨hsel, hmem⟩, if_pos ⟨hsel, hmem⟩]

/-- C20, at the block Hello with a caret and the target type `code-block`. -/
theorem C20_toggleBlockType_flat_only_if_witness :
    toggleBlockType specCollaborators (helloDoc (caret "a" 1)) "code-block"
      = .ok (RichTextEditorUtil.toggleBlockType (helloDoc (caret "a" 1)) "code-block") :=
  (C20_toggleBlockType_flat_only_if (helloDoc (caret "a" 1)) "code-block" _ rfl (Or.inl rfl)).1
    ⟨rfl, rfl⟩ specCollaborators

end Draft
